import Mathlib

/-!
Verification of the SQL synthesis and guardrail subsystem of the ai-sql
VS Code extension.  The definitions below are a shallow embedding of the
TypeScript sources:

* the guardrail classifier `checkSelectOnly` together with its helpers
  `stripLeadingComments`, `stripQuotedLiterals` (here `maskChars`) and
  `hasMultipleStatements` from the guardrail module;
* the row-view provider (`ViewDataProvider.ts`): `mergeState`,
  `quoteIdentifier`, `sqlStringLiteral`, `coerceLiteral`, `buildQuery`;
* the aggregate-view provider (`AggregateDataProvider.ts`): `mergeState`,
  `addAggregate`, `removeAggregate`, `normalizeFunc`, `buildQuery`.

Strings are modelled as `List Char` internally (Lean `String` is a list of
characters); the JavaScript regular expressions used by the source are
translated into explicit scanning functions, with comments explaining the
correspondence.  All definitions are structural recursions so that concrete
inputs evaluate by `decide` / `rfl`.
-/

set_option maxHeartbeats 2000000
set_option maxRecDepth 8000

namespace AiSql

/-- Single-quote character (ASCII 39). -/
def squoteChar : Char := Char.ofNat 39

/-- Double-quote character (ASCII 34). -/
def dquoteChar : Char := Char.ofNat 34

/-- Backtick character (ASCII 96). -/
def btickChar : Char := Char.ofNat 96

/-- Whitespace, mirroring the JavaScript regular-expression class `\s`
(and `String.trim`) on the ASCII range: space, tab, newline, carriage
return, vertical tab, form feed. -/
def wsChar (c : Char) : Bool :=
  c = ' ' || c = '\t' || c = '\n' || c = '\r' || c = Char.ofNat 11 || c = Char.ofNat 12

/-- Word character, mirroring the JavaScript regular-expression class `\w`
(`[A-Za-z0-9_]`; `Char.isAlphanum` is exactly ASCII letters and digits). -/
def isWordChar (c : Char) : Bool :=
  c.isAlphanum || c = '_'

/-- ASCII lower-casing of a character list.  `Char.toLower` maps `A`–`Z` to
`a`–`z` and is the identity elsewhere, which matches the canonicalisation
used by a case-insensitive (non-unicode) JavaScript regular expression. -/
def lowerList (l : List Char) : List Char := l.map Char.toLower

/-- Check that the second list starts with the first. -/
def startsWithL : List Char → List Char → Bool
  | [], _ => true
  | _ :: _, [] => false
  | p :: ps, c :: cs => p = c && startsWithL ps cs

/-! ### stripLeadingComments -/

/-- Drop characters up to and including the first newline (the effect of the
regular expression `^--[^\n]*\n?` after the leading `--`). -/
def dropThroughNewline : List Char → List Char
  | [] => []
  | c :: t => if c = '\n' then t else dropThroughNewline t

/-- Remove one leading `--` line comment, as `s.replace(/^--[^\n]*\n?/, '')`. -/
def dropLineComment (s : List Char) : List Char :=
  match s with
  | '-' :: '-' :: t => dropThroughNewline t
  | _ => s

/-- Scan for the first `*/` and return the remainder after it (the lazy
regular expression `[\s\S]*?\*\//` finds the first closing marker). -/
def afterBlockClose : List Char → Option (List Char)
  | [] => none
  | '*' :: '/' :: t => some t
  | _ :: t => afterBlockClose t

/-- Remove one leading `/* ... */` block comment, as
`s.replace(/^\/\*[\s\S]*?\*\//, '')`; an unclosed block comment is not a
match and the string is returned unchanged. -/
def dropBlockComment (s : List Char) : List Char :=
  match s with
  | '/' :: '*' :: t =>
    match afterBlockClose t with
    | some r => r
    | none => s
  | _ => s

/-- One iteration of the `stripLeadingComments` loop body: strip leading
whitespace (`^\s+`), then one line comment, then one block comment. -/
def stripOnce (s : List Char) : List Char :=
  dropBlockComment (dropLineComment (s.dropWhile wsChar))

/-- Fuelled fixpoint iteration of `stripOnce`; each productive iteration
removes at least one character, so a fuel of `s.length` suffices to reach
the fixpoint that the `while (true) { ... if (s === before) break; }` loop
in the source computes. -/
def stripLCAux : Nat → List Char → List Char
  | 0, s => s
  | fuel + 1, s =>
    let t := stripOnce s
    if t = s then s else stripLCAux fuel t

/-- The `stripLeadingComments` function of the guardrail module. -/
def stripLeadingComments (s : List Char) : List Char :=
  stripLCAux s.length s

/-! ### stripQuotedLiterals -/

/-- The mode of the quote-masking state machine in `stripQuotedLiterals`. -/
inductive MaskMode
  | normal
  | single
  | double
  | backtick
  | bracket
deriving DecidableEq, Repr

/-- The character-level state machine of `stripQuotedLiterals`: replace the
interior of single-quoted, double-quoted, backtick-quoted and
bracket-quoted regions (each with its doubled-character escape) by spaces,
including the delimiters themselves. -/
def maskChars : MaskMode → List Char → List Char
  | _, [] => []
  | .normal, c :: rest =>
    if c = squoteChar then ' ' :: maskChars .single rest
    else if c = dquoteChar then ' ' :: maskChars .double rest
    else if c = btickChar then ' ' :: maskChars .backtick rest
    else if c = '[' then ' ' :: maskChars .bracket rest
    else c :: maskChars .normal rest
  | .single, [c] => if c = squoteChar then [' '] else [' ']
  | .single, c :: c2 :: rest =>
    if c = squoteChar then
      if c2 = squoteChar then ' ' :: ' ' :: maskChars .single rest
      else ' ' :: maskChars .normal (c2 :: rest)
    else ' ' :: maskChars .single (c2 :: rest)
  | .double, [c] => if c = dquoteChar then [' '] else [' ']
  | .double, c :: c2 :: rest =>
    if c = dquoteChar then
      if c2 = dquoteChar then ' ' :: ' ' :: maskChars .double rest
      else ' ' :: maskChars .normal (c2 :: rest)
    else ' ' :: maskChars .double (c2 :: rest)
  | .backtick, [c] => if c = btickChar then [' '] else [' ']
  | .backtick, c :: c2 :: rest =>
    if c = btickChar then
      if c2 = btickChar then ' ' :: ' ' :: maskChars .backtick rest
      else ' ' :: maskChars .normal (c2 :: rest)
    else ' ' :: maskChars .backtick (c2 :: rest)
  | .bracket, [c] => if c = ']' then [' '] else [' ']
  | .bracket, c :: c2 :: rest =>
    if c = ']' then
      if c2 = ']' then ' ' :: ' ' :: maskChars .bracket rest
      else ' ' :: maskChars .normal (c2 :: rest)
    else ' ' :: maskChars .bracket (c2 :: rest)

/-- The `stripQuotedLiterals` function of the guardrail module. -/
def stripQuotedLiterals (s : List Char) : List Char :=
  maskChars .normal s

/-! ### hasMultipleStatements -/

/-- Remainder after the first statement separator, if any
(`s.indexOf(';')` followed by `s.slice(first + 1)`). -/
def afterFirstSemi : List Char → Option (List Char)
  | [] => none
  | c :: t => if c = ';' then some t else afterFirstSemi t

/-- The `hasMultipleStatements` function: any non-whitespace content after
the first `;` means multiple statements; a single trailing `;` followed
only by whitespace is tolerated. -/
def hasMultipleStatements (s : List Char) : Bool :=
  match afterFirstSemi s with
  | none => false
  | some rest => !(rest.all wsChar)

/-! ### The deny-list scan and the structural-exception scans -/

/-- The conservative deny-list of `checkSelectOnly`, in the order the
alternatives appear in the regular expression. -/
def denyKeywords : List (List Char) :=
  ["insert", "update", "delete", "merge", "create", "alter", "drop",
   "truncate", "grant", "revoke", "exec", "execute", "call", "do",
   "set", "use", "begin", "commit", "rollback", "savepoint", "vacuum",
   "analyze", "replace"].map String.data

/-- The maximal `\w`-run starting at the head of the list. -/
def wordRunOf (s : List Char) : List Char := s.takeWhile isWordChar

/-- Attempt of the alternation `\b(insert|update|...)\b/i` at the current
position, assuming the left word boundary already holds.  Since every
alternative is a plain word, the attempt succeeds exactly when the maximal
word run starting here, lower-cased, is one of the keywords, and the
matched text (capture group 1) is that run as written in the input. -/
def tryDeny (s : List Char) : Option (List Char) :=
  let run := wordRunOf s
  if lowerList run ∈ denyKeywords then some run else none

/-- Left-to-right scan of `withoutLiterals.match(forbidden)`: at every
position with a left word boundary (start of input, or previous character
not a word character) try the alternation; return the first (leftmost)
matched text.  The boolean argument records whether the previous character
was a word character. -/
def firstForbiddenAux : Bool → List Char → Option (List Char)
  | _, [] => none
  | prev, c :: rest =>
    if !prev && isWordChar c then
      match tryDeny (c :: rest) with
      | some m => some m
      | none => firstForbiddenAux (isWordChar c) rest
    else firstForbiddenAux (isWordChar c) rest

/-- The deny-list scan over the whole masked statement. -/
def firstForbidden (s : List Char) : Option (List Char) :=
  firstForbiddenAux false s

/-- Whole-word, case-insensitive occurrence scan for a fixed word `w`
(used for the `\binto\b` part of the SELECT INTO test); the boolean records
whether the previous character was a word character. -/
def hasWordAux (w : List Char) : Bool → List Char → Bool
  | _, [] => false
  | prev, c :: rest =>
    if !prev && isWordChar c then
      (decide (lowerList (wordRunOf (c :: rest)) = w)) || hasWordAux w (isWordChar c) rest
    else hasWordAux w (isWordChar c) rest

/-- The test `/\bselect\b[\s\S]*\binto\b/i.test(withoutLiterals)`: a
whole-word `select` somewhere, with a whole-word `into` somewhere after its
six characters. -/
def selectIntoAux : Bool → List Char → Bool
  | _, [] => false
  | prev, c :: rest =>
    ((!prev && decide (lowerList (wordRunOf (c :: rest)) = "select".data)) &&
       hasWordAux "into".data true (rest.drop 5)) ||
    selectIntoAux (isWordChar c) rest

/-- The SELECT INTO structural-exception test. -/
def selectIntoTest (s : List Char) : Bool :=
  selectIntoAux false s

/-- Attempt of `\bfor\s+update\b/i` at the current position (left boundary
assumed): `for`, at least one whitespace character, then a whole word
`update`.  The greedy `\s+` is equivalent to taking the full whitespace
run, since a shorter run would leave a whitespace character where `u` is
required. -/
def forUpdateAt (s : List Char) : Bool :=
  match s with
  | c1 :: c2 :: c3 :: t =>
    c1.toLower = 'f' && c2.toLower = 'o' && c3.toLower = 'r' &&
      !(t.takeWhile wsChar).isEmpty &&
      decide (lowerList (wordRunOf (t.dropWhile wsChar)) = "update".data)
  | _ => false

/-- Left-to-right scan for the FOR UPDATE pattern. -/
def forUpdateAux : Bool → List Char → Bool
  | _, [] => false
  | prev, c :: rest =>
    (!prev && forUpdateAt (c :: rest)) || forUpdateAux (isWordChar c) rest

/-- The FOR UPDATE structural-exception test. -/
def forUpdateTest (s : List Char) : Bool :=
  forUpdateAux false s

/-! ### checkSelectOnly -/

/-- Result record of the guardrail classifier (`SqlGuardrailResult`). -/
structure SqlGuardrailResult where
  isSelectOnly : Bool
  reason : Option String
deriving DecidableEq, Repr

/-- The guardrail classifier `checkSelectOnly`.  A string is all-whitespace
exactly when dropping its leading whitespace leaves nothing, which models
the `!withoutLeadingComments.trim()` emptiness test. -/
def checkSelectOnly (sql : String) : SqlGuardrailResult :=
  let withoutLeadingComments := stripLeadingComments sql.data
  if (withoutLeadingComments.dropWhile wsChar).isEmpty then
    { isSelectOnly := false, reason := some "Empty SQL." }
  else
    let withoutLiterals := maskChars .normal withoutLeadingComments
    if hasMultipleStatements withoutLiterals then
      { isSelectOnly := false, reason := some "Multiple statements detected." }
    else
      let head := lowerList (withoutLiterals.dropWhile wsChar)
      if startsWithL "select".data head || startsWithL "with".data head then
        match firstForbidden withoutLiterals with
        | some m =>
          { isSelectOnly := false,
            reason := some ("Forbidden keyword detected: " ++ String.mk m ++ ".") }
        | none =>
          if selectIntoTest withoutLiterals then
            { isSelectOnly := false,
              reason := some "SELECT INTO detected (can create objects)." }
          else if forUpdateTest withoutLiterals then
            { isSelectOnly := false, reason := some "FOR UPDATE detected." }
          else { isSelectOnly := true, reason := none }
      else { isSelectOnly := false, reason := some "Statement is not a SELECT." }

/-- The masked text that `checkSelectOnly` scans, as a standalone function
for use in theorem statements. -/
def maskOf (sql : String) : List Char :=
  maskChars .normal (stripLeadingComments sql.data)

/-! ### Shared provider helpers (`models/connection.ts`, quoting, literals) -/

/-- The `DatabaseType` enumeration of `models/connection.ts`. -/
inductive DatabaseType
  | mssql
  | postgresql
  | mysql
deriving DecidableEq, Repr

/-- Sort direction (`'asc' | 'desc' | 'none'`). -/
inductive SortDirection
  | asc
  | desc
  | none
deriving DecidableEq, Repr

/-- Filter operator (`'=' | '<' | '>' | 'like'`). -/
inductive FilterOperator
  | eq
  | lt
  | gt
  | like
deriving DecidableEq, Repr

/-- The characters a comparison operator contributes to the SQL text. -/
def operatorChars : FilterOperator → List Char
  | .eq => ['=']
  | .lt => ['<']
  | .gt => ['>']
  | .like => []

/-- Global replacement doubling every occurrence of `q`
(`identifier.replace(/q/g, 'qq')`). -/
def escDoubling (q : Char) : List Char → List Char
  | [] => []
  | c :: t => if c = q then q :: q :: escDoubling q t else c :: escDoubling q t

/-- The `quoteIdentifier` helper shared by both providers, at character
level: brackets with `]]` escape for SQL Server, backticks with doubled
backtick for MySQL, double quotes with doubled quote for PostgreSQL. -/
def quoteIdentChars (d : DatabaseType) (identifier : String) : List Char :=
  match d with
  | .mssql => '[' :: escDoubling ']' identifier.data ++ [']']
  | .mysql => btickChar :: escDoubling btickChar identifier.data ++ [btickChar]
  | .postgresql => dquoteChar :: escDoubling dquoteChar identifier.data ++ [dquoteChar]

/-- The `quoteIdentifier` helper as a string function. -/
def quoteIdentifier (d : DatabaseType) (identifier : String) : String :=
  ⟨quoteIdentChars d identifier⟩

/-- The `sqlStringLiteral` helper: single quotes with doubled-quote escape. -/
def sqlLitChars (value : List Char) : List Char :=
  squoteChar :: escDoubling squoteChar value ++ [squoteChar]

/-- The `sqlStringLiteral` helper as a string function. -/
def sqlStringLiteral (value : String) : String :=
  ⟨sqlLitChars value.data⟩

/-- JavaScript `String.prototype.trim` on a character list. -/
def trimChars (s : List Char) : List Char :=
  ((s.dropWhile wsChar).reverse.dropWhile wsChar).reverse

/-- The basic numeric-literal pattern `^-?\d+(\.\d+)?$` after the optional
leading minus sign: one or more digits, optionally followed by a dot and
one or more digits, with nothing after. -/
def numLitCore (v : List Char) : Bool :=
  !(v.takeWhile Char.isDigit).isEmpty &&
    (match v.dropWhile Char.isDigit with
     | [] => true
     | c :: t =>
       c = '.' && !(t.takeWhile Char.isDigit).isEmpty &&
         (t.dropWhile Char.isDigit).isEmpty)

/-- The full numeric-literal pattern `^-?\d+(\.\d+)?$`. -/
def numLit (v : List Char) : Bool :=
  match v with
  | c :: t => if c = '-' then numLitCore t else numLitCore (c :: t)
  | [] => false

/-- The `coerceLiteral` helper shared by both providers: trim; an empty
value becomes an empty string literal; a value matching the basic numeric
pattern passes through unquoted; anything else is quoted as a string
literal. -/
def coerceLiteralChars (value : List Char) : List Char :=
  let v := trimChars value
  if v.isEmpty then sqlLitChars []
  else if numLit v then v
  else sqlLitChars v

/-- The decimal digit character for a value below ten. -/
def digitChar (n : Nat) : Char :=
  if n = 0 then '0' else if n = 1 then '1' else if n = 2 then '2'
  else if n = 3 then '3' else if n = 4 then '4' else if n = 5 then '5'
  else if n = 6 then '6' else if n = 7 then '7' else if n = 8 then '8' else '9'

/-- Fuelled decimal rendering helper (the fuel only bounds the recursion
depth; `n + 1` iterations always suffice since the argument shrinks by a
factor of ten each step). -/
def natDigitsAux : Nat → Nat → List Char
  | 0, _ => []
  | fuel + 1, n =>
    if n < 10 then [digitChar n]
    else natDigitsAux fuel (n / 10) ++ [digitChar (n % 10)]

/-- Decimal rendering of a natural number, as produced by the template
interpolation `${safeLimit}`. -/
def natDigits (n : Nat) : List Char :=
  natDigitsAux (n + 1) n

/-- The `safeLimit` computation `Number.isFinite(state.limit) ?
Math.max(1, Math.floor(state.limit)) : 100`; limits are modelled as
integers, which are always finite, and `Math.floor` is the identity on
them. -/
def safeLimitOf (limit : Int) : Nat :=
  (max 1 limit).toNat

/-- Join a list of fragments with a separator (`Array.prototype.join`). -/
def joinSep (sep : List Char) : List (List Char) → List Char
  | [] => []
  | [x] => x
  | x :: y :: xs => x ++ sep ++ joinSep sep (y :: xs)

/-- JavaScript truthiness for an optional string followed by the
`v ? String(v) : undefined` idiom: `null`, `undefined` and the empty
string collapse to `undefined`. -/
def truthyStr : Option String → Option String
  | some s => if s = "" then Option.none else some s
  | Option.none => Option.none

/-! ### ViewDataProvider (row view) -/

namespace ViewData

/-- The `ViewState` record of `ViewDataProvider.ts`. -/
structure ViewState where
  connectionId : String
  database : Option String
  schema : Option String
  tableName : String
  availableColumns : List String
  selectedColumns : List String
  limit : Int
  sortColumn : Option String
  sortDirection : SortDirection
  filterField : Option String
  filterOperator : Option FilterOperator
  filterValue : Option String
deriving DecidableEq, Repr

/-- A refresh payload for the row view.  Each field is `Option.none` when
the corresponding property is absent (or has the wrong runtime type, which
the source treats the same way); the doubly-optional fields distinguish a
string value (`some (some s)`) from an explicit `null` (`some none`). -/
structure ViewPayload where
  selectedColumns : Option (List String)
  limit : Option Int
  sortColumn : Option (Option String)
  sortDirection : Option String
  filterField : Option (Option String)
  filterOperator : Option String
  filterValue : Option (Option String)

/-- The seen-set duplicate filter used for `selectedColumns` in
`mergeState` (keep first occurrences, preserve order). -/
def dedupAux (seen : List String) : List String → List String
  | [] => []
  | c :: t => if seen.contains c then dedupAux seen t else c :: dedupAux (c :: seen) t

/-- The `mergeState` method of `ViewDataProvider`.  The source assigns the
fields of the copied `next` record one `if` at a time; each assignment
writes a distinct field and reads only `current` and the payload, so the
sequence is presented here as a single record update. -/
def mergeState (current : ViewState) (payload : ViewPayload) : ViewState :=
  { current with
      selectedColumns :=
        match payload.selectedColumns with
        | some cols =>
          let filtered := dedupAux [] (cols.filter (fun c => current.availableColumns.contains c))
          if filtered.isEmpty then current.availableColumns else filtered
        | Option.none => current.selectedColumns
      limit :=
        match payload.limit with
        | some l => if l ∈ ([20, 100, 250, 1000] : List Int) then l else current.limit
        | Option.none => current.limit
      sortColumn :=
        match payload.sortColumn with
        | some v =>
          match truthyStr v with
          | some c => if current.availableColumns.contains c then some c else Option.none
          | Option.none => Option.none
        | Option.none => current.sortColumn
      sortDirection :=
        match payload.sortDirection with
        | some s =>
          if s = "asc" then .asc
          else if s = "desc" then .desc
          else if s = "none" then .none
          else current.sortDirection
        | Option.none => current.sortDirection
      filterField :=
        match payload.filterField with
        | some v =>
          match truthyStr v with
          | some f => if current.availableColumns.contains f then some f else Option.none
          | Option.none => Option.none
        | Option.none => current.filterField
      filterOperator :=
        match payload.filterOperator with
        | some s =>
          if s = "=" then some .eq
          else if s = "<" then some .lt
          else if s = ">" then some .gt
          else if s = "like" then some .like
          else current.filterOperator
        | Option.none => current.filterOperator
      filterValue :=
        match payload.filterValue with
        | some v => truthyStr v
        | Option.none => current.filterValue }

/-- The effective projection columns of `buildQuery`:
`(state.selectedColumns.length ? state.selectedColumns :
state.availableColumns).filter(c => state.availableColumns.includes(c))`. -/
def effectiveCols (st : ViewState) : List String :=
  (if st.selectedColumns.isEmpty then st.availableColumns else st.selectedColumns).filter
    (fun c => st.availableColumns.contains c)

/-- The `FROM` target of `buildQuery`: a schema-qualified name when
`state.schema` is truthy (present and non-empty).  The aggregate provider
contains a textually identical computation and reuses this definition. -/
def fromTargetChars (d : DatabaseType) (schema : Option String) (tableName : String) : List Char :=
  match truthyStr schema with
  | some s => quoteIdentChars d s ++ '.' :: quoteIdentChars d tableName
  | Option.none => quoteIdentChars d tableName

/-- The single optional `WHERE` predicate of `buildQuery`, built when a
validated filter field, an operator and a non-empty trimmed value are all
present (`whereParts` receives at most this one entry). -/
def wherePredChars (d : DatabaseType) (availableColumns : List String)
    (filterField : Option String) (filterOperator : Option FilterOperator)
    (filterValue : Option String) : Option (List Char) :=
  let field :=
    match truthyStr filterField with
    | some f => if availableColumns.contains f then some f else Option.none
    | Option.none => Option.none
  let fv := trimChars (filterValue.getD "").data
  match field, filterOperator with
  | some f, some op =>
    if fv.isEmpty then Option.none
    else if op = .like then
      some (quoteIdentChars d f ++ " LIKE ".data ++ sqlLitChars fv)
    else
      some (quoteIdentChars d f ++ ' ' :: operatorChars op ++ ' ' :: coerceLiteralChars fv)
  | _, _ => Option.none

/-- The `WHERE` clause text (empty when there is no predicate). -/
def whereClauseChars (d : DatabaseType) (st : ViewState) : List Char :=
  match wherePredChars d st.availableColumns st.filterField st.filterOperator st.filterValue with
  | some w => " WHERE ".data ++ w
  | Option.none => []

/-- The validated sort column of `buildQuery`. -/
def sortColOf (availableColumns : List String) (sortColumn : Option String) : Option String :=
  match truthyStr sortColumn with
  | some c => if availableColumns.contains c then some c else Option.none
  | Option.none => Option.none

/-- The `ORDER BY` clause text. -/
def orderClauseChars (d : DatabaseType) (sortCol : Option String)
    (sortDirection : SortDirection) : List Char :=
  match sortCol, sortDirection with
  | some c, .asc => " ORDER BY ".data ++ quoteIdentChars d c ++ " ASC".data
  | some c, .desc => " ORDER BY ".data ++ quoteIdentChars d c ++ " DESC".data
  | _, _ => []

/-- The `buildQuery` method of `ViewDataProvider`, at character level. -/
def buildQueryChars (d : DatabaseType) (st : ViewState) : List Char :=
  let cols := effectiveCols st
  let selectList :=
    if cols.isEmpty then "*".data
    else joinSep ", ".data (cols.map (quoteIdentChars d))
  let fromTarget := fromTargetChars d st.schema st.tableName
  let whereClause := whereClauseChars d st
  let orderClause := orderClauseChars d (sortColOf st.availableColumns st.sortColumn) st.sortDirection
  let digits := natDigits (safeLimitOf st.limit)
  match d with
  | .mssql =>
    "SELECT TOP (".data ++ digits ++ ") ".data ++ selectList ++ " FROM ".data ++
      fromTarget ++ whereClause ++ orderClause
  | _ =>
    "SELECT ".data ++ selectList ++ " FROM ".data ++ fromTarget ++ whereClause ++
      orderClause ++ " LIMIT ".data ++ digits

/-- The `buildQuery` method of `ViewDataProvider`. -/
def buildQuery (d : DatabaseType) (st : ViewState) : String :=
  ⟨buildQueryChars d st⟩

/-- The initial state constructed by `showTable`: the available columns are
the fetched column names; the selected columns are those flagged
`viewInList`, or all of them when none is flagged; the limit is 100 and no
sort or filter is set. -/
def initViewState (connectionId : String) (database schema : Option String)
    (tableName : String) (cols : List (String × Bool)) : ViewState :=
  let availableColumns := cols.map Prod.fst
  let viewColumns := (cols.filter Prod.snd).map Prod.fst
  { connectionId := connectionId
    database := database
    schema := schema
    tableName := tableName
    availableColumns := availableColumns
    selectedColumns := if viewColumns.isEmpty then availableColumns else viewColumns
    limit := 100
    sortColumn := Option.none
    sortDirection := .none
    filterField := Option.none
    filterOperator := Option.none
    filterValue := Option.none }

/-- States reachable through the row view's own operations: initial state
construction followed by any number of `mergeState` applications. -/
inductive RowReachable : ViewState → Prop
  | init (connectionId : String) (database schema : Option String) (tableName : String)
      (cols : List (String × Bool)) :
      RowReachable (initViewState connectionId database schema tableName cols)
  | step (st : ViewState) (p : ViewPayload) :
      RowReachable st → RowReachable (mergeState st p)

end ViewData

/-! ### AggregateDataProvider (aggregate view) -/

namespace AggregateData

/-- The `AggregateFunction` union of `AggregateDataProvider.ts`. -/
inductive AggregateFunction
  | none
  | count
  | sum
  | avg
  | min
  | max
deriving DecidableEq, Repr

/-- The string value of an aggregate function (the TypeScript union is
string-valued; template interpolation uses this spelling). -/
def funcStr : AggregateFunction → String
  | .none => "none"
  | .count => "count"
  | .sum => "sum"
  | .avg => "avg"
  | .min => "min"
  | .max => "max"

/-- The upper-cased SQL function name (`agg.func.toUpperCase()`). -/
def funcNameChars : AggregateFunction → List Char
  | .none => "NONE".data
  | .count => "COUNT".data
  | .sum => "SUM".data
  | .avg => "AVG".data
  | .min => "MIN".data
  | .max => "MAX".data

/-- The `AggregateItem` record. -/
structure AggregateItem where
  field : String
  func : AggregateFunction
deriving DecidableEq, Repr

/-- The `AggregateState` record of `AggregateDataProvider.ts`. -/
structure AggregateState where
  connectionId : String
  database : Option String
  schema : Option String
  tableName : String
  availableColumns : List String
  aggregations : List AggregateItem
  includeCountAll : Bool
  limit : Int
  sortColumn : Option String
  sortDirection : SortDirection
  filterField : Option String
  filterOperator : Option FilterOperator
  filterValue : Option String
deriving DecidableEq, Repr

/-- A refresh payload for the aggregate view (no `selectedColumns`). -/
structure AggPayload where
  limit : Option Int
  sortColumn : Option (Option String)
  sortDirection : Option String
  filterField : Option (Option String)
  filterOperator : Option String
  filterValue : Option (Option String)

/-- The `mergeState` method of `AggregateDataProvider`.  Note two
differences from the row view: the accepted limit values are
`[20, 50, 100, 500, 1000]`, and `sortColumn` is stored after the
truthiness test only, without a membership check against
`availableColumns` (it is validated later, against the synthesized output
columns, in `buildQuery`). -/
def mergeState (current : AggregateState) (payload : AggPayload) : AggregateState :=
  { current with
      limit :=
        match payload.limit with
        | some l => if l ∈ ([20, 50, 100, 500, 1000] : List Int) then l else current.limit
        | Option.none => current.limit
      filterField :=
        match payload.filterField with
        | some v =>
          match truthyStr v with
          | some f => if current.availableColumns.contains f then some f else Option.none
          | Option.none => Option.none
        | Option.none => current.filterField
      sortColumn :=
        match payload.sortColumn with
        | some v => truthyStr v
        | Option.none => current.sortColumn
      sortDirection :=
        match payload.sortDirection with
        | some s =>
          if s = "asc" then .asc
          else if s = "desc" then .desc
          else if s = "none" then .none
          else current.sortDirection
        | Option.none => current.sortDirection
      filterOperator :=
        match payload.filterOperator with
        | some s =>
          if s = "=" then some .eq
          else if s = "<" then some .lt
          else if s = ">" then some .gt
          else if s = "like" then some .like
          else current.filterOperator
        | Option.none => current.filterOperator
      filterValue :=
        match payload.filterValue with
        | some v => truthyStr v
        | Option.none => current.filterValue }

/-- The `normalizeFunc` method: only the five real aggregate names map to
themselves; everything else (including `String(undefined)`) becomes
`none`. -/
def normalizeFunc (value : Option String) : AggregateFunction :=
  match value with
  | some "count" => .count
  | some "sum" => .sum
  | some "avg" => .avg
  | some "min" => .min
  | some "max" => .max
  | _ => .none

/-- An `addAggregate` payload (`{ field, func }`); `Option.none` models an
absent or non-string property. -/
structure AddAggPayload where
  field : Option String
  func : Option String

/-- String trim (`payload.field.trim()`). -/
def strTrim (s : String) : String :=
  ⟨trimChars s.data⟩

/-- The `addAggregate` method: reject an empty or unknown field and an
already-present `(field, func)` pair; otherwise push the pair. -/
def addAggregate (current : AggregateState) (payload : AddAggPayload) : AggregateState :=
  let field := match payload.field with
    | some f => strTrim f
    | Option.none => ""
  if field = "" || !(current.availableColumns.contains field) then current
  else
    let func := normalizeFunc payload.func
    if current.aggregations.any (fun item => item.field = field && item.func = func) then current
    else { current with aggregations := current.aggregations ++ [⟨field, func⟩] }

/-- The `removeAggregate` method: an index outside the current bounds is a
no-op, otherwise the item at that index is filtered out. -/
def removeAggregate (current : AggregateState) (index : Option Int) : AggregateState :=
  let idx := index.getD (-1)
  if idx < 0 || idx ≥ (current.aggregations.length : Int) then current
  else { current with aggregations := current.aggregations.eraseIdx idx.toNat }

/-- Replacement of every maximal non-word run by a single underscore
(`.replace(/[^\w]+/g, '_')`); the boolean records whether the scan is
inside a non-word run. -/
def normAliasAux : Bool → List Char → List Char
  | _, [] => []
  | inRun, c :: t =>
    if isWordChar c then c :: normAliasAux false t
    else if inRun then normAliasAux true t
    else '_' :: normAliasAux true t

/-- The alias base `` `${agg.func}_${agg.field}`.replace(/[^\w]+/g, '_') ``. -/
def aliasBaseOf (a : AggregateItem) : String :=
  ⟨normAliasAux false (funcStr a.func ++ "_" ++ a.field).data⟩

/-- The aggregations whose field is a known column
(`state.aggregations.filter(a => state.availableColumns.includes(a.field))`). -/
def validAggs (st : AggregateState) : List AggregateItem :=
  st.aggregations.filter (fun a => st.availableColumns.contains a.field)

/-- The accumulators of the `buildQuery` projection loop. -/
structure AggParts where
  selectParts : List (List Char)
  groupParts : List (List Char)
  outputColumns : List String
deriving DecidableEq, Repr

/-- The `COUNT(*) AS count_all` projection term. -/
def countAllChars (d : DatabaseType) : List Char :=
  "COUNT(*) AS ".data ++ quoteIdentChars d "count_all"

/-- The projection loop of `buildQuery`: a `none` function contributes a
grouping key; any other function contributes `FUNC(column) AS alias` and
an output column named by the alias. -/
def aggLoop (d : DatabaseType) : List AggregateItem → AggParts
  | [] => ⟨[], [], []⟩
  | a :: t =>
    let r := aggLoop d t
    match a.func with
    | .none =>
      ⟨quoteIdentChars d a.field :: r.selectParts,
       quoteIdentChars d a.field :: r.groupParts,
       a.field :: r.outputColumns⟩
    | f =>
      let ab := aliasBaseOf a
      let aliasName := if ab = "" then funcStr f else ab
      ⟨(funcNameChars f ++ '(' :: quoteIdentChars d a.field ++ ") AS ".data ++
          quoteIdentChars d aliasName) :: r.selectParts,
       r.groupParts,
       aliasName :: r.outputColumns⟩

/-- The projection parts after the two `COUNT(*) AS count_all` append
rules: one term when the loop produced nothing, and one term when
`includeCountAll` is set and no output column is already named
`count_all`. -/
def aggParts (d : DatabaseType) (st : AggregateState) : AggParts :=
  let r := aggLoop d (validAggs st)
  let r :=
    if r.selectParts.isEmpty then
      ⟨r.selectParts ++ [countAllChars d], r.groupParts, r.outputColumns ++ ["count_all"]⟩
    else r
  if st.includeCountAll && !(r.outputColumns.contains "count_all") then
    ⟨r.selectParts ++ [countAllChars d], r.groupParts, r.outputColumns ++ ["count_all"]⟩
  else r

/-- The `GROUP BY` clause text. -/
def groupClauseChars (groupParts : List (List Char)) : List Char :=
  if groupParts.isEmpty then [] else " GROUP BY ".data ++ joinSep ", ".data groupParts

/-- The `buildQuery` method of `AggregateDataProvider`, at character
level.  The `WHERE` and `ORDER BY` computations are textually identical to
the row view's and reuse its definitions; the sort column is validated
against the synthesized `outputColumns`. -/
def buildQueryChars (d : DatabaseType) (st : AggregateState) : List Char :=
  let r := aggParts d st
  let selectList := joinSep ", ".data r.selectParts
  let fromTarget := ViewData.fromTargetChars d st.schema st.tableName
  let whereClause :=
    match ViewData.wherePredChars d st.availableColumns st.filterField st.filterOperator st.filterValue with
    | some w => " WHERE ".data ++ w
    | Option.none => []
  let groupClause := groupClauseChars r.groupParts
  let orderClause :=
    ViewData.orderClauseChars d (ViewData.sortColOf r.outputColumns st.sortColumn) st.sortDirection
  let digits := natDigits (safeLimitOf st.limit)
  match d with
  | .mssql =>
    "SELECT TOP (".data ++ digits ++ ") ".data ++ selectList ++ " FROM ".data ++
      fromTarget ++ whereClause ++ groupClause ++ orderClause
  | _ =>
    "SELECT ".data ++ selectList ++ " FROM ".data ++ fromTarget ++ whereClause ++
      groupClause ++ orderClause ++ " LIMIT ".data ++ digits

/-- The `buildQuery` method of `AggregateDataProvider`. -/
def buildQuery (d : DatabaseType) (st : AggregateState) : String :=
  ⟨buildQueryChars d st⟩

/-- The initial state constructed by `showTable` for the aggregate view:
fetched column names, caller-supplied initial aggregations and
`includeCountAll` flag, limit 100, no sort or filter. -/
def initAggState (connectionId : String) (database schema : Option String)
    (tableName : String) (availableColumns : List String)
    (initialAggregations : List AggregateItem) (includeCountAll : Bool) : AggregateState :=
  { connectionId := connectionId
    database := database
    schema := schema
    tableName := tableName
    availableColumns := availableColumns
    aggregations := initialAggregations
    includeCountAll := includeCountAll
    limit := 100
    sortColumn := Option.none
    sortDirection := .none
    filterField := Option.none
    filterOperator := Option.none
    filterValue := Option.none }

/-- States reachable through the aggregate view's own operations: initial
state construction followed by any number of merge, add-aggregation and
remove-aggregation applications. -/
inductive AggReachable : AggregateState → Prop
  | init (connectionId : String) (database schema : Option String) (tableName : String)
      (availableColumns : List String) (initialAggregations : List AggregateItem)
      (includeCountAll : Bool) :
      AggReachable (initAggState connectionId database schema tableName availableColumns
        initialAggregations includeCountAll)
  | step (st : AggregateState) (p : AggPayload) :
      AggReachable st → AggReachable (mergeState st p)
  | add (st : AggregateState) (p : AddAggPayload) :
      AggReachable st → AggReachable (addAggregate st p)
  | remove (st : AggregateState) (index : Option Int) :
      AggReachable st → AggReachable (removeAggregate st index)

end AggregateData

/-! ### Auxiliary scanning helpers for theorem statements -/

/-- Check that the second list ends with the first. -/
def endsWithL (suffix s : List Char) : Bool :=
  startsWithL suffix.reverse s.reverse

/-- Check that the first list occurs as a contiguous sublist of the
second. -/
def containsL (pat : List Char) : List Char → Bool
  | [] => startsWithL pat []
  | c :: rest => startsWithL pat (c :: rest) || containsL pat rest

/-- A string that is just one single-quote character, used to assemble SQL
example texts. -/
def sqStr : String := String.mk [squoteChar]

/-- Validity of an optional column reference: either unset or naming a
known column of `avail`. -/
def columnOK (avail : List String) : Option String → Bool
  | some c => avail.contains c
  | Option.none => true

/-- The enumerated limit values accepted by the row view's `mergeState`. -/
def rowLimits : List Int := [20, 100, 250, 1000]

/-- The enumerated limit values accepted by the aggregate view's
`mergeState`. -/
def aggLimits : List Int := [20, 50, 100, 500, 1000]

/-- A row-view state used as a concrete example in several theorems:
available columns `id` and `name`, empty selection, limit 100, no sort or
filter. -/
def exampleRowState : ViewData.ViewState :=
  { connectionId := "c"
    database := Option.none
    schema := Option.none
    tableName := "t"
    availableColumns := ["id", "name"]
    selectedColumns := []
    limit := 100
    sortColumn := Option.none
    sortDirection := .none
    filterField := Option.none
    filterOperator := Option.none
    filterValue := Option.none }

/-- An aggregate-view state used as a concrete example in several
theorems. -/
def exampleAggState : AggregateData.AggregateState :=
  { connectionId := "c"
    database := Option.none
    schema := Option.none
    tableName := "t"
    availableColumns := ["id"]
    aggregations := []
    includeCountAll := false
    limit := 100
    sortColumn := Option.none
    sortDirection := .none
    filterField := Option.none
    filterOperator := Option.none
    filterValue := Option.none }

/-- An aggregate-view payload with every property absent. -/
def emptyAggPayload : AggregateData.AggPayload :=
  { limit := Option.none
    sortColumn := Option.none
    sortDirection := Option.none
    filterField := Option.none
    filterOperator := Option.none
    filterValue := Option.none }

/-- A row-view payload with every property absent. -/
def emptyRowPayload : ViewData.ViewPayload :=
  { selectedColumns := Option.none
    limit := Option.none
    sortColumn := Option.none
    sortDirection := Option.none
    filterField := Option.none
    filterOperator := Option.none
    filterValue := Option.none }

/-- A variant of the example row state whose table has no columns at all;
only then does the projection fall back to `*`. -/
def emptyColsRowState : ViewData.ViewState :=
  { exampleRowState with
      availableColumns := []
      selectedColumns := [] }

/-- The aggregate payload that sets the sort column to an unknown name. -/
def c3Payload : AggregateData.AggPayload :=
  { emptyAggPayload with sortColumn := some (some "zzz") }

/-- The aggregate payload requesting the limit 50. -/
def c4Payload : AggregateData.AggPayload :=
  { emptyAggPayload with limit := some 50 }

/-- The SQL text of claim C5:
`SELECT * FROM t WHERE name = 'a;DROP TABLE x'`. -/
def c5Input : String :=
  "SELECT * FROM t WHERE name = " ++ sqStr ++ "a;DROP TABLE x" ++ sqStr

/-- An aggregate state whose single aggregation item itself produces the
output alias `count_all` (field `all`, function `count`), with
`includeCountAll` set. -/
def c8State : AggregateData.AggregateState :=
  { exampleAggState with
      availableColumns := ["all"]
      aggregations := [⟨"all", .count⟩]
      includeCountAll := true }

/-- An add-aggregation payload for field `id`, function `sum`. -/
def c9Payload : AggregateData.AddAggPayload :=
  { field := some "id", func := some "sum" }

/-- An add-aggregation payload whose field is unknown. -/
def c9BadPayload : AggregateData.AddAggPayload :=
  { field := some "nope", func := some "sum" }

/-! ### Word runs and safety predicates for the guardrail proofs

A whole-word, case-insensitive occurrence of a keyword in the sense of the
JavaScript pattern `\bkw\b/i` is exactly a boundary-delimited maximal
`\w`-run whose lower-casing equals the keyword, since keywords consist of
word characters only.  `wordRunsP` collects these runs with the same
prev-character bookkeeping as the scanning functions. -/

/-- The boundary-delimited maximal word runs of a string; the boolean
records whether the previous character was a word character (a run starts
only at a non-word boundary). -/
def wordRunsP : Bool → List Char → List (List Char)
  | _, [] => []
  | prev, c :: rest =>
    if !prev && isWordChar c then
      (c :: rest.takeWhile isWordChar) :: wordRunsP (isWordChar c) rest
    else wordRunsP (isWordChar c) rest

/-- The word runs of a whole string. -/
def wordRuns (s : List Char) : List (List Char) := wordRunsP false s

/-- Characters that open a quoted region in `stripQuotedLiterals`. -/
def isQuoteOpen (c : Char) : Bool :=
  c = squoteChar || c = dquoteChar || c = btickChar || c = '['

/-- The closing (and escape) character of each dialect's identifier
quoting. -/
def closeCharOf : DatabaseType → Char
  | .mssql => ']'
  | .mysql => btickChar
  | .postgresql => dquoteChar

/-- The words (lower-cased) that synthesized SQL may contain outside
quoted regions.  None of them is on the deny list, and neither `into` nor
`update` is among them. -/
def allowedWords : List (List Char) :=
  ["select", "top", "from", "where", "like", "order", "by", "asc", "desc",
   "limit", "group", "count", "sum", "avg", "min", "max", "as", "none"].map String.data

/-- A word run that cannot trigger any scan of the classifier: either one
of the fixed SQL words of the synthesizer, or a run of digits. -/
def AllowedRun (r : List Char) : Prop :=
  lowerList r ∈ allowedWords ∨ ∀ c ∈ r, c.isDigit = true

instance (r : List Char) : Decidable (AllowedRun r) :=
  inferInstanceAs (Decidable (_ ∨ _))

/-- Safety of a (suffix of a) synthesized query: its masked form contains
no statement separator, and every boundary-delimited word run of the
masked form is allowed. -/
def MaskedSafe (s : List Char) : Prop :=
  ';' ∉ maskChars .normal s ∧
    ∀ r ∈ wordRunsP false (maskChars .normal s), AllowedRun r

instance (s : List Char) : Decidable (MaskedSafe s) :=
  inferInstanceAs (Decidable (_ ∧ _))

/-- A tail of a synthesized query that is safe and empty or starts with a
space (every optional clause does). -/
def GoodTail (s : List Char) : Prop :=
  MaskedSafe s ∧ (s = [] ∨ ∃ t, s = ' ' :: t)

/-- The characters that may immediately follow a quoted identifier or a
string literal in synthesized SQL.  None of them is a closing-quote
character of any dialect, none is a word character. -/
def safeFollow (b : List Char) : Prop :=
  b.head? = Option.none ∨ b.head? = some ' ' ∨ b.head? = some ',' ∨
    b.head? = some '.' ∨ b.head? = some ')'

/-! ## Claim C2: row-view synthesis for the example state -/

/-- C2, counterexample: for the state with `availableColumns = {id, name}`,
`selectedColumns = []` and `limit = 100`, the SQL Server query does NOT
start with `SELECT TOP (100) *` — an empty selection projects all
available columns, so the query is
`SELECT TOP (100) [id], [name] FROM [t]`. -/
theorem c2_counterexample :
    startsWithL "SELECT TOP (100) *".data (ViewData.buildQuery .mssql exampleRowState).data
        = false ∧
      ViewData.buildQuery .mssql exampleRowState = "SELECT TOP (100) [id], [name] FROM [t]" := by
  decide

/-- C2 (amended): for the state with `availableColumns = {id, name}`,
`selectedColumns = []` and `limit = 100`, the prefix-pagination dialect
(SQL Server) yields `SELECT TOP (100) [id], [name] FROM [t]` and the
suffix-pagination dialects (PostgreSQL, MySQL) yield SQL ending with
`LIMIT 100`; the projection falls back to `*` only when the filtered
column list is empty (for example when the table has no columns). -/
theorem c2_amended :
    ViewData.buildQuery .mssql exampleRowState = "SELECT TOP (100) [id], [name] FROM [t]" ∧
      ViewData.buildQuery .postgresql exampleRowState
        = "SELECT \"id\", \"name\" FROM \"t\" LIMIT 100" ∧
      endsWithL "LIMIT 100".data (ViewData.buildQuery .postgresql exampleRowState).data = true ∧
      endsWithL "LIMIT 100".data (ViewData.buildQuery .mysql exampleRowState).data = true ∧
      ViewData.buildQuery .mssql emptyColsRowState = "SELECT TOP (100) * FROM [t]" := by
  decide

/-! ## Claim C3: merge and unknown sort/filter columns -/

/-- C3, counterexample: the aggregate-view `mergeState` stores a payload
`sortColumn` after a truthiness test only, so a column that is not in
`availableColumns` is introduced into the state. -/
theorem c3_counterexample :
    columnOK exampleAggState.availableColumns exampleAggState.sortColumn = true ∧
      columnOK exampleAggState.availableColumns exampleAggState.filterField = true ∧
      (AggregateData.mergeState exampleAggState c3Payload).sortColumn = some "zzz" ∧
      exampleAggState.availableColumns.contains "zzz" = false := by
  decide

/-- C3 (amended): the row-view merge never introduces a `sortColumn` or
`filterField` outside `availableColumns`, and the aggregate-view merge
never introduces such a `filterField`; the aggregate-view merge stores any
non-empty `sortColumn` string unchecked (it is validated against the
synthesized output columns at synthesis time instead). -/
theorem c3_amended :
    (∀ (st : ViewData.ViewState) (p : ViewData.ViewPayload),
        columnOK st.availableColumns st.sortColumn = true →
          columnOK st.availableColumns (ViewData.mergeState st p).sortColumn = true) ∧
      (∀ (st : ViewData.ViewState) (p : ViewData.ViewPayload),
        columnOK st.availableColumns st.filterField = true →
          columnOK st.availableColumns (ViewData.mergeState st p).filterField = true) ∧
      (∀ (st : AggregateData.AggregateState) (p : AggregateData.AggPayload),
        columnOK st.availableColumns st.filterField = true →
          columnOK st.availableColumns (AggregateData.mergeState st p).filterField = true) := by
  refine ⟨?_, ?_, ?_⟩ <;> intro st p h
  · simp only [ViewData.mergeState]
    cases p.sortColumn with
    | none => exact h
    | some v =>
      rcases htv : truthyStr v with _ | c
      · simp [htv, columnOK]
      · by_cases hc : c ∈ st.availableColumns <;> simp [htv, hc, columnOK]
  · simp only [ViewData.mergeState]
    cases p.filterField with
    | none => exact h
    | some v =>
      rcases htv : truthyStr v with _ | c
      · simp [htv, columnOK]
      · by_cases hc : c ∈ st.availableColumns <;> simp [htv, hc, columnOK]
  · simp only [AggregateData.mergeState]
    cases p.filterField with
    | none => exact h
    | some v =>
      rcases htv : truthyStr v with _ | c
      · simp [htv, columnOK]
      · by_cases hc : c ∈ st.availableColumns <;> simp [htv, hc, columnOK]

/-- C3, witness: the amended preservation applied to a concrete state and
payload. -/
theorem c3_witness :
    columnOK exampleRowState.availableColumns
        (ViewData.mergeState exampleRowState emptyRowPayload).sortColumn = true :=
  c3_amended.1 exampleRowState emptyRowPayload (by decide)

/-! ## Claim C4: merge and the enumerated limit values -/

/-- C4, counterexample: the aggregate-view `mergeState` accepts the limit
50, which is outside the claimed safe set `{20, 100, 250, 1000}`, so a
state with a limit in that set can leave it. -/
theorem c4_counterexample :
    exampleAggState.limit ∈ rowLimits ∧
      (AggregateData.mergeState exampleAggState c4Payload).limit = 50 ∧
      (AggregateData.mergeState exampleAggState c4Payload).limit ∉ rowLimits := by
  decide

/-- C4 (amended): the row-view merge keeps the limit inside
`{20, 100, 250, 1000}` and leaves it unchanged for any payload limit
outside that set; the aggregate-view merge uses its own safe set
`{20, 50, 100, 500, 1000}`, keeps the limit inside it, and leaves the
limit unchanged for payload limits outside it. -/
theorem c4_amended :
    (∀ (st : ViewData.ViewState) (p : ViewData.ViewPayload),
        st.limit ∈ rowLimits → (ViewData.mergeState st p).limit ∈ rowLimits) ∧
      (∀ (st : ViewData.ViewState) (p : ViewData.ViewPayload) (l : Int),
        p.limit = some l → l ∉ rowLimits → (ViewData.mergeState st p).limit = st.limit) ∧
      (∀ (st : AggregateData.AggregateState) (p : AggregateData.AggPayload),
        st.limit ∈ aggLimits → (AggregateData.mergeState st p).limit ∈ aggLimits) ∧
      (∀ (st : AggregateData.AggregateState) (p : AggregateData.AggPayload) (l : Int),
        p.limit = some l → l ∉ aggLimits → (AggregateData.mergeState st p).limit = st.limit) := by
  refine ⟨?_, ?_, ?_, ?_⟩
  · intro st p h
    simp only [ViewData.mergeState]
    cases p.limit with
    | none => exact h
    | some l =>
      by_cases hl : l ∈ ([20, 100, 250, 1000] : List Int) <;>
        simp [hl, rowLimits] at h ⊢ <;> tauto
  · intro st p l hp hl
    simp only [ViewData.mergeState, hp]
    simp [rowLimits] at hl
    simp [hl]
  · intro st p h
    simp only [AggregateData.mergeState]
    cases p.limit with
    | none => exact h
    | some l =>
      by_cases hl : l ∈ ([20, 50, 100, 500, 1000] : List Int) <;>
        simp [hl, aggLimits] at h ⊢ <;> tauto
  · intro st p l hp hl
    simp only [AggregateData.mergeState, hp]
    simp [aggLimits] at hl
    simp [hl]

/-- C4, witness: the amended limit preservation applied to a concrete
state and payload. -/
theorem c4_witness :
    (ViewData.mergeState exampleRowState emptyRowPayload).limit ∈ rowLimits :=
  c4_amended.1 exampleRowState emptyRowPayload (by decide)

/-! ## Claim C5: literal masking hides separators and keywords -/

/-- C5: `checkSelectOnly "SELECT * FROM t WHERE name = 'a;DROP TABLE x'"`
returns a safe verdict even though the raw text contains both a statement
separator and the keyword DROP, because the single-quoted literal is
masked before the separator and keyword scans. -/
theorem c5_literal_masking_safe :
    checkSelectOnly c5Input = ⟨true, Option.none⟩ ∧
      containsL ";".data c5Input.data = true ∧
      containsL "DROP".data c5Input.data = true := by
  decide

/-! ## Claim C8: at most one COUNT(*) AS count_all term -/

/-- Distinct heads after a common prefix make list concatenations
distinct. -/
theorem append_cons_ne {p x y : List Char} {a b : Char} (h : a ≠ b) :
    p ++ a :: x ≠ p ++ b :: y := by
  intro he
  exact h (List.cons.inj (List.append_cancel_left he)).1

/-- A quoted identifier is never the `COUNT(*) AS count_all` projection
term (it starts with a quoting character, not with `C`). -/
theorem quoteIdent_ne_countAll (d : DatabaseType) (n : String) :
    quoteIdentChars d n ≠ AggregateData.countAllChars d := by
  have hc : AggregateData.countAllChars d
      = 'C' :: ("OUNT(*) AS ".data ++ quoteIdentChars d "count_all") := rfl
  cases d <;> · rw [hc]; exact @append_cons_ne [] _ _ _ _ (by decide)

/-- A `FUNC(column) AS alias` projection term is never the
`COUNT(*) AS count_all` term: either the function name differs from
`COUNT` in its first character, or the character after `COUNT(` is a
quoting character rather than `*`. -/
theorem funcPart_ne_countAll (d : DatabaseType) (f : AggregateData.AggregateFunction)
    (fld aliasNm : String) :
    AggregateData.funcNameChars f ++ '(' :: quoteIdentChars d fld ++ ") AS ".data ++
        quoteIdentChars d aliasNm ≠ AggregateData.countAllChars d := by
  have hc : AggregateData.countAllChars d
      = "COUNT(".data ++ '*' :: (") AS ".data ++ quoteIdentChars d "count_all") := rfl
  have hne : ∀ {a b : Char} {x y : List Char}, a ≠ b → a :: x ≠ b :: y := by
    intro a b x y h he
    exact h (List.cons.inj he).1
  cases f <;> cases d <;>
    (rw [hc]
     simp only [quoteIdentChars, List.cons_append, List.append_assoc]
     first
     | exact hne (by decide)
     | exact @append_cons_ne ("COUNT(".data) _ _ _ _ (by decide))

/-- The projection loop itself never emits the `COUNT(*) AS count_all`
term. -/
theorem aggLoop_count_countAll (d : DatabaseType) (l : List AggregateData.AggregateItem) :
    (AggregateData.aggLoop d l).selectParts.count (AggregateData.countAllChars d) = 0 := by
  induction l with
  | nil => rfl
  | cons a t ih =>
    cases hf : a.func with
    | none =>
      simp only [AggregateData.aggLoop, hf, List.count_cons, ih]
      simp [quoteIdent_ne_countAll d a.field]
    | count =>
      simp only [AggregateData.aggLoop, hf, List.count_cons, ih]
      simpa using funcPart_ne_countAll d .count a.field _
    | sum =>
      simp only [AggregateData.aggLoop, hf, List.count_cons, ih]
      simpa using funcPart_ne_countAll d .sum a.field _
    | avg =>
      simp only [AggregateData.aggLoop, hf, List.count_cons, ih]
      simpa using funcPart_ne_countAll d .avg a.field _
    | min =>
      simp only [AggregateData.aggLoop, hf, List.count_cons, ih]
      simpa using funcPart_ne_countAll d .min a.field _
    | max =>
      simp only [AggregateData.aggLoop, hf, List.count_cons, ih]
      simpa using funcPart_ne_countAll d .max a.field _

/-- C8, counterexample: when an aggregation item itself produces the
output alias `count_all` (field `all`, function `count`) and
`includeCountAll` is set, the synthesized projection contains ZERO
`COUNT(*) AS count_all` terms, not exactly one. -/
theorem c8_counterexample :
    c8State.includeCountAll = true ∧
      AggregateData.validAggs c8State ≠ [] ∧
      (AggregateData.aggParts .mssql c8State).selectParts.count
          (AggregateData.countAllChars .mssql) = 0 ∧
      AggregateData.buildQuery .mssql c8State
        = "SELECT TOP (100) COUNT([all]) AS [count_all] FROM [t]" := by
  refine ⟨rfl, by decide, by decide, by decide⟩

/-- C8 (amended): the aggregate projection always contains at most one
`COUNT(*) AS count_all` term; exactly one is appended when the valid
aggregation list is empty; and when `includeCountAll` is set exactly one
is appended unless some aggregation item already produced an output
column named `count_all` (in which case none is). -/
theorem c8_amended :
    (∀ (d : DatabaseType) (st : AggregateData.AggregateState),
        (AggregateData.aggParts d st).selectParts.count (AggregateData.countAllChars d) ≤ 1) ∧
      (∀ (d : DatabaseType) (st : AggregateData.AggregateState),
        AggregateData.validAggs st = [] →
          (AggregateData.aggParts d st).selectParts.count (AggregateData.countAllChars d) = 1) ∧
      (∀ (d : DatabaseType) (st : AggregateData.AggregateState),
        st.includeCountAll = true →
          (AggregateData.aggLoop d (AggregateData.validAggs st)).outputColumns.contains
              "count_all" = false →
          (AggregateData.aggParts d st).selectParts.count (AggregateData.countAllChars d) = 1) := by
  refine ⟨?_, ?_, ?_⟩
  · intro d st
    have h0 := aggLoop_count_countAll d (AggregateData.validAggs st)
    simp only [AggregateData.aggParts]
    split <;> split <;> simp_all [List.count_append]
  · intro d st h
    simp [AggregateData.aggParts, h, AggregateData.aggLoop, List.count_append,
      aggLoop_count_countAll]
  · intro d st h1 h2
    have h0 := aggLoop_count_countAll d (AggregateData.validAggs st)
    simp only [AggregateData.aggParts]
    simp at h2
    split <;> simp_all [List.count_append]

/-- C8, witness: the amended count facts applied at a concrete state. -/
theorem c8_witness :
    (AggregateData.aggParts .mssql exampleAggState).selectParts.count
        (AggregateData.countAllChars .mssql) = 1 :=
  c8_amended.2.1 .mssql exampleAggState (by decide)

/-! ## Claim C9: add-aggregation is idempotent on (field, function) pairs -/

/-- The `some(...)` duplicate test of `addAggregate` succeeds exactly when
the pair is already present. -/
theorem addAgg_any_iff (l : List AggregateData.AggregateItem) (f : String)
    (k : AggregateData.AggregateFunction) :
    (l.any fun item => item.field = f && item.func = k) = true ↔
      (⟨f, k⟩ : AggregateData.AggregateItem) ∈ l := by
  simp only [List.any_eq_true, Bool.and_eq_true, decide_eq_true_eq]
  constructor
  · rintro ⟨⟨xf, xk⟩, hx, h1, h2⟩
    cases h1
    cases h2
    exact hx
  · intro hx
    exact ⟨⟨f, k⟩, hx, rfl, rfl⟩

/-- An `addAggregate` whose exact pair already exists returns the state
unchanged. -/
theorem addAggregate_dup (st : AggregateData.AggregateState)
    (p : AggregateData.AddAggPayload) (f : String) (hp : p.field = some f)
    (hany : (st.aggregations.any fun item =>
        item.field = AggregateData.strTrim f &&
          item.func = AggregateData.normalizeFunc p.func) = true) :
    AggregateData.addAggregate st p = st := by
  simp only [AggregateData.addAggregate, hp]
  by_cases h1 : (decide (AggregateData.strTrim f = "") ||
      !st.availableColumns.contains (AggregateData.strTrim f)) = true
  · exact if_pos h1
  · rw [if_neg h1, if_pos hany]

/-- An `addAggregate` of a fresh pair with a valid field appends it. -/
theorem addAggregate_push (st : AggregateData.AggregateState)
    (p : AggregateData.AddAggPayload) (f : String) (hp : p.field = some f)
    (hne : AggregateData.strTrim f ≠ "")
    (hmem' : AggregateData.strTrim f ∈ st.availableColumns)
    (hnodup : (st.aggregations.any fun item =>
        item.field = AggregateData.strTrim f &&
          item.func = AggregateData.normalizeFunc p.func) = false) :
    AggregateData.addAggregate st p
      = { st with aggregations := st.aggregations ++
          [⟨AggregateData.strTrim f, AggregateData.normalizeFunc p.func⟩] } := by
  simp only [AggregateData.addAggregate, hp]
  rw [if_neg (by simp [hne, hmem']), if_neg (by simp [hnodup])]

/-- C9: for any aggregate state satisfying the data-model invariant that
the requested `(field, function)` pair occurs at most once, adding that
pair twice via the add-aggregation operation leaves exactly one entry for
it (the second add is a no-op); an add whose (trimmed) field is not in
`availableColumns`, or whose field property is absent, leaves the
aggregation list unchanged. -/
theorem c9_add_aggregate_idempotent :
    (∀ (st : AggregateData.AggregateState) (p : AggregateData.AddAggPayload) (f : String),
        p.field = some f →
        AggregateData.strTrim f ≠ "" →
        st.availableColumns.contains (AggregateData.strTrim f) = true →
        st.aggregations.count
            ⟨AggregateData.strTrim f, AggregateData.normalizeFunc p.func⟩ ≤ 1 →
        (AggregateData.addAggregate (AggregateData.addAggregate st p) p).aggregations.count
            ⟨AggregateData.strTrim f, AggregateData.normalizeFunc p.func⟩ = 1) ∧
      (∀ (st : AggregateData.AggregateState) (p : AggregateData.AddAggPayload) (f : String),
        p.field = some f →
        st.availableColumns.contains (AggregateData.strTrim f) = false →
        (AggregateData.addAggregate st p).aggregations = st.aggregations) ∧
      (∀ (st : AggregateData.AggregateState) (p : AggregateData.AddAggPayload),
        p.field = Option.none →
        (AggregateData.addAggregate st p).aggregations = st.aggregations) := by
  refine ⟨?_, ?_, ?_⟩
  · intro st p f hp hne hmem hcount
    have hmem' : AggregateData.strTrim f ∈ st.availableColumns := by simpa using hmem
    by_cases hin :
        (⟨AggregateData.strTrim f, AggregateData.normalizeFunc p.func⟩ :
          AggregateData.AggregateItem) ∈ st.aggregations
    · have hany := (addAgg_any_iff st.aggregations (AggregateData.strTrim f)
        (AggregateData.normalizeFunc p.func)).mpr hin
      have hstep := addAggregate_dup st p f hp hany
      rw [hstep, hstep]
      have hpos : 0 < st.aggregations.count
          ⟨AggregateData.strTrim f, AggregateData.normalizeFunc p.func⟩ :=
        List.count_pos_iff.mpr hin
      omega
    · have hany : (st.aggregations.any fun item =>
          item.field = AggregateData.strTrim f &&
            item.func = AggregateData.normalizeFunc p.func) = false := by
        rw [Bool.eq_false_iff]
        intro hc
        exact hin ((addAgg_any_iff _ _ _).mp hc)
      have hstep := addAggregate_push st p f hp hne hmem' hany
      have hany2 : (((st.aggregations ++
          [⟨AggregateData.strTrim f, AggregateData.normalizeFunc p.func⟩] :
            List AggregateData.AggregateItem)).any fun item =>
          item.field = AggregateData.strTrim f &&
            item.func = AggregateData.normalizeFunc p.func) = true := by
        rw [addAgg_any_iff]
        exact List.mem_append_right _ (List.mem_singleton.mpr rfl)
      have hstep2 : AggregateData.addAggregate (AggregateData.addAggregate st p) p
          = AggregateData.addAggregate st p := by
        rw [hstep]
        exact addAggregate_dup _ p f hp hany2
      rw [hstep2, hstep]
      have hzero : st.aggregations.count
          ⟨AggregateData.strTrim f, AggregateData.normalizeFunc p.func⟩ = 0 :=
        List.count_eq_zero.mpr hin
      simp [List.count_append, hzero]
  · intro st p f hp hmem
    by_cases hf : AggregateData.strTrim f = ""
    · simp only [AggregateData.addAggregate, hp]
      rw [if_pos (by simp [hf])]
    · have hmem' : AggregateData.strTrim f ∉ st.availableColumns := by
        simpa using hmem
      simp only [AggregateData.addAggregate, hp]
      rw [if_pos (by simp [hf, hmem'])]
  · intro st p hp
    simp only [AggregateData.addAggregate, hp]
    rw [if_pos (by simp)]

/-! ## Word-run lemmas for the scanning functions -/

/-- Whitespace characters are not word characters. -/
theorem isWordChar_of_ws (c : Char) (h : wsChar c = true) : isWordChar c = false := by
  simp only [wsChar, Bool.or_eq_true, decide_eq_true_eq] at h
  rcases h with ((((h | h) | h) | h) | h) | h <;> subst h <;> decide

/-- A non-word head never starts a run, and resets the boundary flag. -/
theorem wordRunsP_nonword {c : Char} (h : isWordChar c = false) (prev : Bool)
    (rest : List Char) : wordRunsP prev (c :: rest) = wordRunsP false rest := by
  simp [wordRunsP, h]

/-- After a word character, a word head continues the current run. -/
theorem wordRunsP_word_true {c : Char} (h : isWordChar c = true) (rest : List Char) :
    wordRunsP true (c :: rest) = wordRunsP true rest := by
  simp [wordRunsP, h]

/-- At a boundary, a word head starts a run. -/
theorem wordRunsP_word_false {c : Char} (h : isWordChar c = true) (rest : List Char) :
    wordRunsP false (c :: rest)
      = (c :: rest.takeWhile isWordChar) :: wordRunsP true rest := by
  simp [wordRunsP, h]

/-- Whatever the boundary flag, the runs of the tail are among the runs of
the whole list. -/
theorem wordRunsP_msub {c : Char} {rest : List Char} {r : List Char} (prev : Bool)
    (h : r ∈ wordRunsP (isWordChar c) rest) : r ∈ wordRunsP prev (c :: rest) := by
  by_cases hw : isWordChar c = true
  · cases prev with
    | true => rw [hw] at h; rwa [wordRunsP_word_true hw]
    | false => rw [hw] at h; rw [wordRunsP_word_false hw]; exact List.mem_cons_of_mem _ h
  · rw [Bool.not_eq_true] at hw
    rw [hw] at h
    rwa [wordRunsP_nonword hw]

/-- Runs found after dropping a prefix (with the flag set) are runs of the
whole list. -/
theorem wordRunsP_drop_sub : ∀ (n : Nat) (s : List Char) (prev : Bool) (r : List Char),
    r ∈ wordRunsP true (s.drop n) → r ∈ wordRunsP prev s := by
  intro n
  induction n with
  | zero =>
    intro s prev r h
    cases s with
    | nil => simpa using h
    | cons c t =>
      rw [List.drop_zero] at h
      have h' : r ∈ wordRunsP (isWordChar c) t := by
        have heq : wordRunsP true (c :: t) = wordRunsP (isWordChar c) t := by
          simp [wordRunsP]
        rwa [heq] at h
      exact wordRunsP_msub prev h'
  | succ n ih =>
    intro s prev r h
    cases s with
    | nil => simpa using h
    | cons c t =>
      exact wordRunsP_msub prev (ih t (isWordChar c) r h)

/-- Leading whitespace does not affect which runs appear. -/
theorem wordRunsP_ws_lift : ∀ (w : List Char), w ≠ [] → (∀ a ∈ w, wsChar a = true) →
    ∀ (x : List Char) (prev : Bool) (r : List Char),
      r ∈ wordRunsP false x → r ∈ wordRunsP prev (w ++ x) := by
  intro w
  induction w with
  | nil => intro h; exact absurd rfl h
  | cons a w ih =>
    intro _ hws x prev r hr
    have ha : isWordChar a = false :=
      isWordChar_of_ws a (hws a (List.mem_cons_self a w))
    cases w with
    | nil => rw [List.cons_append, List.nil_append, wordRunsP_nonword ha]; exact hr
    | cons b w' =>
      rw [List.cons_append, wordRunsP_nonword ha]
      have := ih (by simp) (fun c hc => hws c (List.mem_cons_of_mem a hc)) x false r hr
      exact this

/-- C9, witness: adding `(id, sum)` twice to the example aggregate state
leaves exactly one entry, and an unknown field is a no-op. -/
theorem c9_witness :
    (AggregateData.addAggregate (AggregateData.addAggregate exampleAggState c9Payload)
        c9Payload).aggregations.count
      ⟨AggregateData.strTrim "id", AggregateData.normalizeFunc (some "sum")⟩ = 1 ∧
      (AggregateData.addAggregate exampleAggState c9BadPayload).aggregations
        = exampleAggState.aggregations :=
  ⟨c9_add_aggregate_idempotent.1 exampleAggState c9Payload "id" rfl (by decide) (by decide)
      (by decide),
    c9_add_aggregate_idempotent.2.1 exampleAggState c9BadPayload "nope" rfl (by decide)⟩

/-! ## Characterizing the deny-list and structural-exception scans -/

/-- The deny-list scan returns nothing exactly when no boundary-delimited
word run lower-cases to a deny-list keyword. -/
theorem firstForbiddenAux_eq_none_iff : ∀ (s : List Char) (prev : Bool),
    firstForbiddenAux prev s = Option.none ↔
      ∀ r ∈ wordRunsP prev s, lowerList r ∉ denyKeywords := by
  intro s
  induction s with
  | nil => intro prev; simp [firstForbiddenAux, wordRunsP]
  | cons c rest ih =>
    intro prev
    by_cases hw : isWordChar c = true
    · cases prev with
      | true =>
        have e1 : firstForbiddenAux true (c :: rest) = firstForbiddenAux true rest := by
          simp [firstForbiddenAux, hw]
        rw [e1, wordRunsP_word_true hw]
        exact ih true
      | false =>
        have hrun : wordRunOf (c :: rest) = c :: rest.takeWhile isWordChar := by
          simp [wordRunOf, List.takeWhile_cons, hw]
        by_cases hd : lowerList (c :: rest.takeWhile isWordChar) ∈ denyKeywords
        · have e1 : firstForbiddenAux false (c :: rest)
              = some (c :: rest.takeWhile isWordChar) := by
            simp [firstForbiddenAux, hw, tryDeny, hrun, hd]
          rw [e1, wordRunsP_word_false hw]
          apply iff_of_false (by simp)
          intro hall
          exact hall _ (List.mem_cons_self _ _) hd
        · have e1 : firstForbiddenAux false (c :: rest) = firstForbiddenAux true rest := by
            simp [firstForbiddenAux, hw, tryDeny, hrun, hd]
          rw [e1, wordRunsP_word_false hw]
          simp only [List.mem_cons, forall_eq_or_imp]
          constructor
          · intro h; exact ⟨hd, (ih true).mp h⟩
          · intro h; exact (ih true).mpr h.2
    · rw [Bool.not_eq_true] at hw
      have e1 : firstForbiddenAux prev (c :: rest) = firstForbiddenAux false rest := by
        simp [firstForbiddenAux, hw]
      rw [e1, wordRunsP_nonword hw]
      exact ih false

/-- Whatever the deny-list scan returns, its lower-casing is a deny-list
keyword. -/
theorem firstForbiddenAux_some_deny : ∀ (s : List Char) (prev : Bool) (m : List Char),
    firstForbiddenAux prev s = some m → lowerList m ∈ denyKeywords := by
  intro s
  induction s with
  | nil => intro prev m h; simp [firstForbiddenAux] at h
  | cons c rest ih =>
    intro prev m h
    by_cases hw : isWordChar c = true
    · cases prev with
      | true =>
        have e1 : firstForbiddenAux true (c :: rest) = firstForbiddenAux true rest := by
          simp [firstForbiddenAux, hw]
        rw [e1] at h
        exact ih true m h
      | false =>
        have hrun : wordRunOf (c :: rest) = c :: rest.takeWhile isWordChar := by
          simp [wordRunOf, List.takeWhile_cons, hw]
        by_cases hd : lowerList (c :: rest.takeWhile isWordChar) ∈ denyKeywords
        · have e1 : firstForbiddenAux false (c :: rest)
              = some (c :: rest.takeWhile isWordChar) := by
            simp [firstForbiddenAux, hw, tryDeny, hrun, hd]
          rw [e1] at h
          cases h
          exact hd
        · have e1 : firstForbiddenAux false (c :: rest) = firstForbiddenAux true rest := by
            simp [firstForbiddenAux, hw, tryDeny, hrun, hd]
          rw [e1] at h
          exact ih true m h
    · rw [Bool.not_eq_true] at hw
      have e1 : firstForbiddenAux prev (c :: rest) = firstForbiddenAux false rest := by
        simp [firstForbiddenAux, hw]
      rw [e1] at h
      exact ih false m h

/-- A successful word search yields a run with that lower-casing. -/
theorem hasWordAux_run : ∀ (s : List Char) (w : List Char) (prev : Bool),
    hasWordAux w prev s = true → ∃ r ∈ wordRunsP prev s, lowerList r = w := by
  intro s
  induction s with
  | nil => intro w prev h; simp [hasWordAux] at h
  | cons c rest ih =>
    intro w prev h
    by_cases hb : (!prev && isWordChar c) = true
    · obtain ⟨hp, hw⟩ := Bool.and_eq_true_iff.mp hb
      rw [Bool.not_eq_true'] at hp
      subst hp
      have e1 : hasWordAux w false (c :: rest)
          = ((decide (lowerList (wordRunOf (c :: rest)) = w)) ||
              hasWordAux w (isWordChar c) rest) := by
        simp [hasWordAux, hw]
      rw [e1] at h
      rcases Bool.or_eq_true_iff.mp h with h1 | h2
      · have hrun : wordRunOf (c :: rest) = c :: rest.takeWhile isWordChar := by
          simp [wordRunOf, List.takeWhile_cons, hw]
        refine ⟨c :: rest.takeWhile isWordChar, ?_, ?_⟩
        · rw [wordRunsP_word_false hw]; exact List.mem_cons_self _ _
        · rw [← hrun]; exact of_decide_eq_true h1
      · obtain ⟨r, hr1, hr2⟩ := ih w (isWordChar c) h2
        exact ⟨r, wordRunsP_msub false hr1, hr2⟩
    · rw [Bool.not_eq_true] at hb
      have e1 : hasWordAux w prev (c :: rest) = hasWordAux w (isWordChar c) rest := by
        simp [hasWordAux, hb]
      rw [e1] at h
      obtain ⟨r, hr1, hr2⟩ := ih w (isWordChar c) h
      exact ⟨r, wordRunsP_msub prev hr1, hr2⟩

/-- A successful SELECT INTO test yields a run lower-casing to `into`. -/
theorem selectIntoAux_run : ∀ (s : List Char) (prev : Bool),
    selectIntoAux prev s = true → ∃ r ∈ wordRunsP prev s, lowerList r = "into".data := by
  intro s
  induction s with
  | nil => intro prev h; simp [selectIntoAux] at h
  | cons c rest ih =>
    intro prev h
    rw [show selectIntoAux prev (c :: rest)
        = (((!prev && decide (lowerList (wordRunOf (c :: rest)) = "select".data)) &&
            hasWordAux "into".data true (rest.drop 5)) ||
          selectIntoAux (isWordChar c) rest) from rfl] at h
    rcases Bool.or_eq_true_iff.mp h with h1 | h2
    · obtain ⟨_, hinto⟩ := Bool.and_eq_true_iff.mp h1
      obtain ⟨r, hr1, hr2⟩ := hasWordAux_run (rest.drop 5) "into".data true hinto
      exact ⟨r, wordRunsP_msub prev (wordRunsP_drop_sub 5 rest (isWordChar c) r hr1), hr2⟩
    · obtain ⟨r, hr1, hr2⟩ := ih (isWordChar c) h2
      exact ⟨r, wordRunsP_msub prev hr1, hr2⟩

/-- A successful FOR UPDATE test yields a run lower-casing to `update`. -/
theorem forUpdateAux_run : ∀ (s : List Char) (prev : Bool),
    forUpdateAux prev s = true → ∃ r ∈ wordRunsP prev s, lowerList r = "update".data := by
  intro s
  induction s with
  | nil => intro prev h; simp [forUpdateAux] at h
  | cons c rest ih =>
    intro prev h
    rw [show forUpdateAux prev (c :: rest)
        = ((!prev && forUpdateAt (c :: rest)) || forUpdateAux (isWordChar c) rest) from
      rfl] at h
    rcases Bool.or_eq_true_iff.mp h with h1 | h2
    · obtain ⟨_, hat⟩ := Bool.and_eq_true_iff.mp h1
      rcases rest with _ | ⟨c2, rest2⟩
      · simp [forUpdateAt] at hat
      rcases rest2 with _ | ⟨c3, t⟩
      · simp [forUpdateAt] at hat
      simp only [forUpdateAt, Bool.and_eq_true, decide_eq_true_eq] at hat
      obtain ⟨⟨⟨⟨_, _⟩, _⟩, hws⟩, hupd⟩ := hat
      set x := t.dropWhile wsChar with hx
      have hx_ne : wordRunOf x ≠ [] := by
        intro he
        rw [he] at hupd
        simp [lowerList] at hupd
      rcases hxs : x with _ | ⟨u, x'⟩
      · rw [hxs] at hx_ne; simp [wordRunOf] at hx_ne
      have hu : isWordChar u = true := by
        by_contra hcu
        rw [Bool.not_eq_true] at hcu
        rw [hxs] at hx_ne
        simp [wordRunOf, List.takeWhile_cons, hcu] at hx_ne
      have hmem : wordRunOf x ∈ wordRunsP false x := by
        rw [hxs, wordRunsP_word_false hu]
        simp [wordRunOf, List.takeWhile_cons, hu]
      have hlift : wordRunOf x ∈ wordRunsP (isWordChar c3) t := by
        have hsplit : t = t.takeWhile wsChar ++ t.dropWhile wsChar :=
          (List.takeWhile_append_dropWhile wsChar t).symm
        rw [hsplit]
        apply wordRunsP_ws_lift (t.takeWhile wsChar)
        · intro he
          rw [he] at hws
          simp at hws
        · intro a ha
          exact List.mem_takeWhile_imp ha
        · rw [← hx]; exact hmem
      exact ⟨wordRunOf x,
        wordRunsP_msub prev (wordRunsP_msub (isWordChar c)
          (wordRunsP_msub (isWordChar c2) hlift)), hupd⟩
    · obtain ⟨r, hr1, hr2⟩ := ih (isWordChar c) h2
      exact ⟨r, wordRunsP_msub prev hr1, hr2⟩

/-- Lower-casing is the identity on digits. -/
theorem toLower_digit (c : Char) (h : c.isDigit = true) : c.toLower = c := by
  simp only [Char.isDigit, Bool.and_eq_true, decide_eq_true_eq] at h
  obtain ⟨h1, h2⟩ := h
  have h2' : c.val.toNat ≤ 57 := UInt32.toNat_le_of_le (by decide) h2
  have hn : ¬ (Char.toNat c ≥ 65 ∧ Char.toNat c ≤ 90) := by
    intro hcontra
    have he : Char.toNat c = c.val.toNat := rfl
    omega
  simp only [Char.toLower]
  rw [if_neg hn]

/-- An allowed run can trigger neither the deny-list scan nor the
SELECT INTO or FOR UPDATE patterns. -/
theorem allowedRun_safe (r : List Char) (h : AllowedRun r) :
    lowerList r ∉ denyKeywords ∧ lowerList r ≠ "into".data ∧
      lowerList r ≠ "update".data := by
  rcases h with h | h
  · refine ⟨?_, ?_, ?_⟩
    · intro hd
      have hall : ∀ w ∈ allowedWords, w ∉ denyKeywords := by decide
      exact hall _ h hd
    · intro he
      rw [he] at h
      exact absurd h (by decide)
    · intro he
      rw [he] at h
      exact absurd h (by decide)
  · have hhead : ∀ (k : List Char), lowerList r = k → (k.headD ' ').isDigit = true ∨ r = [] := by
      intro k hk
      cases r with
      | nil => right; rfl
      | cons a t =>
        left
        have ha := h a (List.mem_cons_self a t)
        rw [← hk]
        simp only [lowerList, List.map_cons, List.headD_cons]
        rw [toLower_digit a ha]
        exact ha
    refine ⟨?_, ?_, ?_⟩
    · intro hd
      rcases hhead _ rfl with hh | hh
      · have hden : ∀ k ∈ denyKeywords, (k.headD ' ').isDigit = false := by decide
        have := hden _ hd
        rw [this] at hh
        cases hh
      · rw [hh] at hd
        exact absurd hd (by decide)
    · intro he
      rcases hhead _ he with hh | hh
      · exact absurd hh (by decide)
      · rw [hh] at he
        exact absurd he (by decide)
    · intro he
      rcases hhead _ he with hh | hh
      · exact absurd hh (by decide)
      · rw [hh] at he
        exact absurd he (by decide)

/-- Without a separator there is no statement split. -/
theorem afterFirstSemi_eq_none (s : List Char) (h : ';' ∉ s) :
    afterFirstSemi s = Option.none := by
  induction s with
  | nil => rfl
  | cons c t ih =>
    have hc : ¬ (c = ';') := by
      intro he
      exact h (he ▸ List.mem_cons_self c t)
    simp only [afterFirstSemi, hc, if_false]
    exact ih (fun hm => h (List.mem_cons_of_mem c hm))

/-! ## Masking lemmas: plain text is copied, quoted regions become spaces -/

/-- Masking copies quote-free text verbatim and continues in normal
mode. -/
theorem maskChars_plain (a b : List Char) (h : ∀ c ∈ a, isQuoteOpen c = false) :
    maskChars .normal (a ++ b) = a ++ maskChars .normal b := by
  induction a with
  | nil => rfl
  | cons c t ih =>
    have hc := h c (List.mem_cons_self c t)
    simp only [isQuoteOpen, Bool.or_eq_false_iff, decide_eq_false_iff_not] at hc
    obtain ⟨⟨⟨h1, h2⟩, h3⟩, h4⟩ := hc
    rw [List.cons_append,
      show maskChars .normal (c :: (t ++ b)) = c :: maskChars .normal (t ++ b) from by
        simp [maskChars, h1, h2, h3, h4],
      ih (fun x hx => h x (List.mem_cons_of_mem c hx)), List.cons_append]

/-- Masking is the identity on quote-free text. -/
theorem maskChars_plain_id (a : List Char) (h : ∀ c ∈ a, isQuoteOpen c = false) :
    maskChars .normal a = a := by
  have h2 := maskChars_plain a [] h
  rw [show maskChars MaskMode.normal ([] : List Char) = [] from rfl, List.append_nil] at h2
  exact h2

/-- Single-quote mode turns everything up to and including the closing
quote into spaces, provided what follows cannot be mistaken for an
escape. -/
theorem maskChars_single_close (x : List Char) : ∀ (b : List Char),
    b.head? ≠ some squoteChar →
    ∃ k, maskChars .single (escDoubling squoteChar x ++ squoteChar :: b)
      = List.replicate (k + 1) ' ' ++ maskChars .normal b := by
  induction x with
  | nil =>
    intro b hb
    refine ⟨0, ?_⟩
    cases b with
    | nil => rfl
    | cons c2 t =>
      have hc2 : ¬ (c2 = squoteChar) := by
        intro he
        exact hb (by simp [he])
      show maskChars .single (squoteChar :: c2 :: t) = _
      simp [maskChars, hc2, List.replicate]
  | cons c x ih =>
    intro b hb
    by_cases hcq : c = squoteChar
    · subst hcq
      obtain ⟨k, hk⟩ := ih b hb
      refine ⟨k + 2, ?_⟩
      have hesc : escDoubling squoteChar (squoteChar :: x)
          = squoteChar :: squoteChar :: escDoubling squoteChar x := by
        simp [escDoubling]
      rw [hesc, List.cons_append, List.cons_append,
        show maskChars .single (squoteChar :: squoteChar ::
            (escDoubling squoteChar x ++ squoteChar :: b))
          = ' ' :: ' ' :: maskChars .single (escDoubling squoteChar x ++ squoteChar :: b)
          from by simp [maskChars],
        hk]
      simp [List.replicate]
    · obtain ⟨k, hk⟩ := ih b hb
      refine ⟨k + 1, ?_⟩
      have hesc : escDoubling squoteChar (c :: x) = c :: escDoubling squoteChar x := by
        simp [escDoubling, hcq]
      rw [hesc, List.cons_append]
      rcases hsh : escDoubling squoteChar x ++ squoteChar :: b with _ | ⟨c2, rest2⟩
      · exact absurd hsh (by simp)
      rw [show maskChars .single (c :: c2 :: rest2) = ' ' :: maskChars .single (c2 :: rest2)
          from by simp [maskChars, hcq],
        ← hsh, hk]
      simp [List.replicate]

/-- Double-quote mode analogue of `maskChars_single_close`. -/
theorem maskChars_double_close (x : List Char) : ∀ (b : List Char),
    b.head? ≠ some dquoteChar →
    ∃ k, maskChars .double (escDoubling dquoteChar x ++ dquoteChar :: b)
      = List.replicate (k + 1) ' ' ++ maskChars .normal b := by
  induction x with
  | nil =>
    intro b hb
    refine ⟨0, ?_⟩
    cases b with
    | nil => rfl
    | cons c2 t =>
      have hc2 : ¬ (c2 = dquoteChar) := by
        intro he
        exact hb (by simp [he])
      show maskChars .double (dquoteChar :: c2 :: t) = _
      simp [maskChars, hc2, List.replicate]
  | cons c x ih =>
    intro b hb
    by_cases hcq : c = dquoteChar
    · subst hcq
      obtain ⟨k, hk⟩ := ih b hb
      refine ⟨k + 2, ?_⟩
      have hesc : escDoubling dquoteChar (dquoteChar :: x)
          = dquoteChar :: dquoteChar :: escDoubling dquoteChar x := by
        simp [escDoubling]
      rw [hesc, List.cons_append, List.cons_append,
        show maskChars .double (dquoteChar :: dquoteChar ::
            (escDoubling dquoteChar x ++ dquoteChar :: b))
          = ' ' :: ' ' :: maskChars .double (escDoubling dquoteChar x ++ dquoteChar :: b)
          from by simp [maskChars],
        hk]
      simp [List.replicate]
    · obtain ⟨k, hk⟩ := ih b hb
      refine ⟨k + 1, ?_⟩
      have hesc : escDoubling dquoteChar (c :: x) = c :: escDoubling dquoteChar x := by
        simp [escDoubling, hcq]
      rw [hesc, List.cons_append]
      rcases hsh : escDoubling dquoteChar x ++ dquoteChar :: b with _ | ⟨c2, rest2⟩
      · exact absurd hsh (by simp)
      rw [show maskChars .double (c :: c2 :: rest2) = ' ' :: maskChars .double (c2 :: rest2)
          from by simp [maskChars, hcq],
        ← hsh, hk]
      simp [List.replicate]

/-- Backtick mode analogue of `maskChars_single_close`. -/
theorem maskChars_backtick_close (x : List Char) : ∀ (b : List Char),
    b.head? ≠ some btickChar →
    ∃ k, maskChars .backtick (escDoubling btickChar x ++ btickChar :: b)
      = List.replicate (k + 1) ' ' ++ maskChars .normal b := by
  induction x with
  | nil =>
    intro b hb
    refine ⟨0, ?_⟩
    cases b with
    | nil => rfl
    | cons c2 t =>
      have hc2 : ¬ (c2 = btickChar) := by
        intro he
        exact hb (by simp [he])
      show maskChars .backtick (btickChar :: c2 :: t) = _
      simp [maskChars, hc2, List.replicate]
  | cons c x ih =>
    intro b hb
    by_cases hcq : c = btickChar
    · subst hcq
      obtain ⟨k, hk⟩ := ih b hb
      refine ⟨k + 2, ?_⟩
      have hesc : escDoubling btickChar (btickChar :: x)
          = btickChar :: btickChar :: escDoubling btickChar x := by
        simp [escDoubling]
      rw [hesc, List.cons_append, List.cons_append,
        show maskChars .backtick (btickChar :: btickChar ::
            (escDoubling btickChar x ++ btickChar :: b))
          = ' ' :: ' ' :: maskChars .backtick (escDoubling btickChar x ++ btickChar :: b)
          from by simp [maskChars],
        hk]
      simp [List.replicate]
    · obtain ⟨k, hk⟩ := ih b hb
      refine ⟨k + 1, ?_⟩
      have hesc : escDoubling btickChar (c :: x) = c :: escDoubling btickChar x := by
        simp [escDoubling, hcq]
      rw [hesc, List.cons_append]
      rcases hsh : escDoubling btickChar x ++ btickChar :: b with _ | ⟨c2, rest2⟩
      · exact absurd hsh (by simp)
      rw [show maskChars .backtick (c :: c2 :: rest2) = ' ' :: maskChars .backtick (c2 :: rest2)
          from by simp [maskChars, hcq],
        ← hsh, hk]
      simp [List.replicate]

/-- Bracket mode analogue of `maskChars_single_close` (escape `]]`,
close `]`). -/
theorem maskChars_bracket_close (x : List Char) : ∀ (b : List Char),
    b.head? ≠ some ']' →
    ∃ k, maskChars .bracket (escDoubling ']' x ++ ']' :: b)
      = List.replicate (k + 1) ' ' ++ maskChars .normal b := by
  induction x with
  | nil =>
    intro b hb
    refine ⟨0, ?_⟩
    cases b with
    | nil => rfl
    | cons c2 t =>
      have hc2 : ¬ (c2 = ']') := by
        intro he
        exact hb (by simp [he])
      show maskChars .bracket (']' :: c2 :: t) = _
      simp [maskChars, hc2, List.replicate]
  | cons c x ih =>
    intro b hb
    by_cases hcq : c = ']'
    · subst hcq
      obtain ⟨k, hk⟩ := ih b hb
      refine ⟨k + 2, ?_⟩
      have hesc : escDoubling ']' (']' :: x) = ']' :: ']' :: escDoubling ']' x := by
        simp [escDoubling]
      rw [hesc, List.cons_append, List.cons_append,
        show maskChars .bracket (']' :: ']' :: (escDoubling ']' x ++ ']' :: b))
          = ' ' :: ' ' :: maskChars .bracket (escDoubling ']' x ++ ']' :: b)
          from by simp [maskChars],
        hk]
      simp [List.replicate]
    · obtain ⟨k, hk⟩ := ih b hb
      refine ⟨k + 1, ?_⟩
      have hesc : escDoubling ']' (c :: x) = c :: escDoubling ']' x := by
        simp [escDoubling, hcq]
      rw [hesc, List.cons_append]
      rcases hsh : escDoubling ']' x ++ ']' :: b with _ | ⟨c2, rest2⟩
      · exact absurd hsh (by simp)
      rw [show maskChars .bracket (c :: c2 :: rest2) = ' ' :: maskChars .bracket (c2 :: rest2)
          from by simp [maskChars, hcq],
        ← hsh, hk]
      simp [List.replicate]

/-- The follow set excludes a given character when that character is none
of the safe separators. -/
theorem safeFollow_head_ne (b : List Char) (hb : safeFollow b) (q : Char)
    (hq : q ≠ ' ' ∧ q ≠ ',' ∧ q ≠ '.' ∧ q ≠ ')') : b.head? ≠ some q := by
  intro he
  rcases hb with h | h | h | h | h
  · rw [he] at h; cases h
  · rw [he] at h; exact hq.1 (Option.some.inj h)
  · rw [he] at h; exact hq.2.1 (Option.some.inj h)
  · rw [he] at h; exact hq.2.2.1 (Option.some.inj h)
  · rw [he] at h; exact hq.2.2.2 (Option.some.inj h)

/-- A quoted identifier masks to a nonempty block of spaces, whatever the
dialect, whenever it is followed by a safe separator (or nothing). -/
theorem maskChars_quoted (d : DatabaseType) (n : String) (b : List Char)
    (hb : safeFollow b) :
    ∃ k, maskChars .normal (quoteIdentChars d n ++ b)
      = List.replicate (k + 2) ' ' ++ maskChars .normal b := by
  cases d with
  | mssql =>
    have hshape : quoteIdentChars .mssql n ++ b
        = '[' :: (escDoubling ']' n.data ++ ']' :: b) := by
      simp [quoteIdentChars]
    obtain ⟨k, hk⟩ := maskChars_bracket_close n.data b
      (safeFollow_head_ne b hb ']' (by decide))
    refine ⟨k, ?_⟩
    rw [hshape,
      show maskChars .normal ('[' :: (escDoubling ']' n.data ++ ']' :: b))
        = ' ' :: maskChars .bracket (escDoubling ']' n.data ++ ']' :: b) from by
          simp [maskChars, squoteChar, dquoteChar, btickChar],
      hk]
    simp [List.replicate]
  | postgresql =>
    have hshape : quoteIdentChars .postgresql n ++ b
        = dquoteChar :: (escDoubling dquoteChar n.data ++ dquoteChar :: b) := by
      simp [quoteIdentChars]
    obtain ⟨k, hk⟩ := maskChars_double_close n.data b
      (safeFollow_head_ne b hb dquoteChar (by decide))
    refine ⟨k, ?_⟩
    rw [hshape,
      show maskChars .normal (dquoteChar ::
          (escDoubling dquoteChar n.data ++ dquoteChar :: b))
        = ' ' :: maskChars .double (escDoubling dquoteChar n.data ++ dquoteChar :: b)
        from by simp [maskChars, squoteChar, dquoteChar],
      hk]
    simp [List.replicate]
  | mysql =>
    have hshape : quoteIdentChars .mysql n ++ b
        = btickChar :: (escDoubling btickChar n.data ++ btickChar :: b) := by
      simp [quoteIdentChars]
    obtain ⟨k, hk⟩ := maskChars_backtick_close n.data b
      (safeFollow_head_ne b hb btickChar (by decide))
    refine ⟨k, ?_⟩
    rw [hshape,
      show maskChars .normal (btickChar ::
          (escDoubling btickChar n.data ++ btickChar :: b))
        = ' ' :: maskChars .backtick (escDoubling btickChar n.data ++ btickChar :: b)
        from by simp [maskChars, squoteChar, dquoteChar, btickChar],
      hk]
    simp [List.replicate]

/-- A single-quoted string literal masks to a nonempty block of spaces
whenever it is followed by a safe separator (or nothing). -/
theorem maskChars_literal (v : List Char) (b : List Char) (hb : safeFollow b) :
    ∃ k, maskChars .normal (sqlLitChars v ++ b)
      = List.replicate (k + 2) ' ' ++ maskChars .normal b := by
  have hshape : sqlLitChars v ++ b
      = squoteChar :: (escDoubling squoteChar v ++ squoteChar :: b) := by
    simp [sqlLitChars]
  obtain ⟨k, hk⟩ := maskChars_single_close v b
    (safeFollow_head_ne b hb squoteChar (by decide))
  refine ⟨k, ?_⟩
  rw [hshape,
    show maskChars .normal (squoteChar :: (escDoubling squoteChar v ++ squoteChar :: b))
      = ' ' :: maskChars .single (escDoubling squoteChar v ++ squoteChar :: b) from by
        simp [maskChars],
    hk]
  simp [List.replicate]

/-- Unfolding of the masker in normal mode. -/
theorem maskChars_normal_cons (c : Char) (cs : List Char) :
    maskChars .normal (c :: cs) =
      if c = squoteChar then ' ' :: maskChars .single cs
      else if c = dquoteChar then ' ' :: maskChars .double cs
      else if c = btickChar then ' ' :: maskChars .backtick cs
      else if c = '[' then ' ' :: maskChars .bracket cs
      else c :: maskChars .normal cs := rfl

/-- The masked form of a list with a non-word head also has a non-word
head. -/
theorem maskChars_head_nonword (c : Char) (cs : List Char) (h : isWordChar c = false) :
    ∃ c' cs', maskChars .normal (c :: cs) = c' :: cs' ∧ isWordChar c' = false := by
  rw [maskChars_normal_cons]
  split_ifs <;> exact ⟨_, _, rfl, by first | decide | exact h⟩

/-! ## Word runs of concatenations -/

/-- A word-run take stops at the boundary when the appended part starts
with a non-word character (or is empty). -/
theorem takeWhile_word_append_right (v : List Char)
    (hv : ∀ c, v.head? = some c → isWordChar c = false) :
    ∀ u : List Char, (u ++ v).takeWhile isWordChar = u.takeWhile isWordChar := by
  intro u
  induction u with
  | nil =>
    cases v with
    | nil => rfl
    | cons c t =>
      simp [List.takeWhile_cons, hv c rfl]
  | cons a u' ih =>
    by_cases ha : isWordChar a = true
    · simp [List.takeWhile_cons, ha, ih]
    · rw [Bool.not_eq_true] at ha
      simp [List.takeWhile_cons, ha]

/-- A word-run take stops inside the left part when that part contains a
non-word character. -/
theorem takeWhile_word_append_left (u v : List Char)
    (hu : ∃ c ∈ u, isWordChar c = false) :
    (u ++ v).takeWhile isWordChar = u.takeWhile isWordChar := by
  induction u with
  | nil => simp at hu
  | cons a u' ih =>
    by_cases ha : isWordChar a = true
    · obtain ⟨c, hc, hcw⟩ := hu
      rcases List.mem_cons.mp hc with he | hm
      · subst he; rw [ha] at hcw; cases hcw
      · simp [List.takeWhile_cons, ha, ih ⟨c, hm, hcw⟩]
    · rw [Bool.not_eq_true] at ha
      simp [List.takeWhile_cons, ha]

/-- Runs split at a boundary whose right side starts with a non-word
character (or is empty). -/
theorem wordRunsP_append_right (v : List Char)
    (hv : ∀ c, v.head? = some c → isWordChar c = false) :
    ∀ (u : List Char) (prev : Bool),
      wordRunsP prev (u ++ v) = wordRunsP prev u ++ wordRunsP false v := by
  intro u
  induction u with
  | nil =>
    intro prev
    cases v with
    | nil => simp [wordRunsP]
    | cons c t =>
      have hc := hv c rfl
      rw [List.nil_append, wordRunsP_nonword hc, wordRunsP_nonword hc]
      simp [wordRunsP]
  | cons c u' ih =>
    intro prev
    by_cases hw : isWordChar c = true
    · cases prev with
      | true =>
        rw [List.cons_append, wordRunsP_word_true hw, wordRunsP_word_true hw, ih true]
      | false =>
        rw [List.cons_append, wordRunsP_word_false hw, wordRunsP_word_false hw,
          takeWhile_word_append_right v hv u', ih true, List.cons_append]
    · rw [Bool.not_eq_true] at hw
      rw [List.cons_append, wordRunsP_nonword hw, wordRunsP_nonword hw, ih false]

/-- Runs split at a boundary whose left side ends with a non-word
character. -/
theorem wordRunsP_append_left : ∀ (u : List Char) (e : Char),
    u.getLast? = some e → isWordChar e = false →
    ∀ (v : List Char) (prev : Bool),
      wordRunsP prev (u ++ v) = wordRunsP prev u ++ wordRunsP false v := by
  intro u
  induction u with
  | nil => intro e he; cases he
  | cons c u' ih =>
    intro e he hew v prev
    cases u' with
    | nil =>
      have hc : c = e := by
        simpa using he
      subst hc
      rw [List.cons_append, List.nil_append, wordRunsP_nonword hew, wordRunsP_nonword hew]
      simp [wordRunsP]
    | cons c2 u'' =>
      have he' : (c2 :: u'').getLast? = some e := by
        rw [List.getLast?_cons_cons] at he
        exact he
      by_cases hw : isWordChar c = true
      · cases prev with
        | true =>
          rw [List.cons_append, wordRunsP_word_true hw, wordRunsP_word_true hw,
            ih e he' hew v true]
        | false =>
          have hmem : ∃ x ∈ c2 :: u'', isWordChar x = false := by
            obtain ⟨hne, hx⟩ :=
              List.mem_getLast?_eq_getLast (Option.mem_def.mpr he')
            exact ⟨e, hx ▸ List.getLast_mem hne, hew⟩
          rw [List.cons_append, wordRunsP_word_false hw, wordRunsP_word_false hw,
            takeWhile_word_append_left _ v hmem, ih e he' hew v true, List.cons_append]
      · rw [Bool.not_eq_true] at hw
        rw [List.cons_append, wordRunsP_nonword hw, wordRunsP_nonword hw, ih e he' hew v false]

/-- A nonempty block of non-word characters contributes no runs and resets
the boundary. -/
theorem wordRunsP_nonword_block : ∀ (a : List Char), a ≠ [] →
    (∀ c ∈ a, isWordChar c = false) →
    ∀ (b : List Char) (prev : Bool), wordRunsP prev (a ++ b) = wordRunsP false b := by
  intro a
  induction a with
  | nil => intro h; exact absurd rfl h
  | cons c a' ih =>
    intro _ hall b prev
    have hc : isWordChar c = false := hall c (List.mem_cons_self c a')
    cases a' with
    | nil => rw [List.cons_append, List.nil_append, wordRunsP_nonword hc]
    | cons c2 a'' =>
      rw [List.cons_append, wordRunsP_nonword hc]
      exact ih (by simp) (fun x hx => hall x (List.mem_cons_of_mem c hx)) b false

/-! ## Extension lemmas for `MaskedSafe` -/

/-- The empty tail is safe. -/
theorem maskedSafe_nil : MaskedSafe [] := by
  constructor
  · simp [maskChars]
  · intro r hr
    simp [maskChars, wordRunsP] at hr

/-- Prepending a plain chunk (no quote characters, no separator, allowed
runs) preserves safety, provided the chunk boundary does not fuse two word
runs. -/
theorem maskedSafe_plain (a b : List Char)
    (hq : ∀ c ∈ a, isQuoteOpen c = false)
    (hs : ';' ∉ a)
    (hw : ∀ r ∈ wordRunsP false a, AllowedRun r)
    (hbd : (∃ e, a.getLast? = some e ∧ isWordChar e = false) ∨ b = [] ∨
        (∃ c cs, b = c :: cs ∧ isWordChar c = false))
    (h : MaskedSafe b) : MaskedSafe (a ++ b) := by
  obtain ⟨h1, h2⟩ := h
  constructor
  · rw [maskChars_plain a b hq]
    intro hmem
    rcases List.mem_append.mp hmem with hm | hm
    · exact hs hm
    · exact h1 hm
  · rw [maskChars_plain a b hq]
    have hsplit : wordRunsP false (a ++ maskChars .normal b)
        = wordRunsP false a ++ wordRunsP false (maskChars .normal b) := by
      rcases hbd with ⟨e, he, hew⟩ | hb | ⟨c, cs, hb, hcw⟩
      · exact wordRunsP_append_left a e he hew _ false
      · subst hb
        simp [maskChars, wordRunsP]
      · subst hb
        obtain ⟨c', cs', hmk, hc'⟩ := maskChars_head_nonword c cs hcw
        rw [hmk]
        apply wordRunsP_append_right
        intro x hx
        rw [List.head?_cons] at hx
        rw [← Option.some.inj hx]
        exact hc'
    rw [hsplit]
    intro r hr
    rcases List.mem_append.mp hr with hm | hm
    · exact hw r hm
    · exact h2 r hm

/-- Prepending a quoted identifier preserves safety when followed by a
safe separator. -/
theorem maskedSafe_quoted (d : DatabaseType) (n : String) (b : List Char)
    (hb : safeFollow b) (h : MaskedSafe b) : MaskedSafe (quoteIdentChars d n ++ b) := by
  obtain ⟨h1, h2⟩ := h
  obtain ⟨k, hk⟩ := maskChars_quoted d n b hb
  constructor
  · rw [hk]
    intro hmem
    rcases List.mem_append.mp hmem with hm | hm
    · exact absurd (List.eq_of_mem_replicate hm) (by decide)
    · exact h1 hm
  · rw [hk, wordRunsP_nonword_block (List.replicate (k + 2) ' ') (by simp)
      (fun c hc => by rw [List.eq_of_mem_replicate hc]; decide) _ false]
    exact h2

/-- Prepending a string literal preserves safety when followed by a safe
separator. -/
theorem maskedSafe_literal (v : List Char) (b : List Char)
    (hb : safeFollow b) (h : MaskedSafe b) : MaskedSafe (sqlLitChars v ++ b) := by
  obtain ⟨h1, h2⟩ := h
  obtain ⟨k, hk⟩ := maskChars_literal v b hb
  constructor
  · rw [hk]
    intro hmem
    rcases List.mem_append.mp hmem with hm | hm
    · exact absurd (List.eq_of_mem_replicate hm) (by decide)
    · exact h1 hm
  · rw [hk, wordRunsP_nonword_block (List.replicate (k + 2) ' ') (by simp)
      (fun c hc => by rw [List.eq_of_mem_replicate hc]; decide) _ false]
    exact h2

/-! ## Character facts for digits and numeric literals -/

/-- The digit characters really are digits. -/
theorem digitChar_isDigit (n : Nat) : (digitChar n).isDigit = true := by
  unfold digitChar
  split_ifs <;> decide

/-- Decimal rendering produces digits only. -/
theorem natDigitsAux_digits : ∀ (fuel n : Nat), ∀ c ∈ natDigitsAux fuel n, c.isDigit = true := by
  intro fuel
  induction fuel with
  | zero => intro n c hc; simp [natDigitsAux] at hc
  | succ fuel ih =>
    intro n c hc
    by_cases h : n < 10
    · simp only [natDigitsAux, h, if_true] at hc
      rw [List.mem_singleton.mp hc]
      exact digitChar_isDigit n
    · simp only [natDigitsAux, h, if_false] at hc
      rcases List.mem_append.mp hc with hm | hm
      · exact ih (n / 10) c hm
      · rw [List.mem_singleton.mp hm]
        exact digitChar_isDigit (n % 10)

/-- Decimal rendering of a natural number produces digits only. -/
theorem natDigits_digits (n : Nat) : ∀ c ∈ natDigits n, c.isDigit = true :=
  natDigitsAux_digits (n + 1) n

/-- Digits are not quote characters. -/
theorem digit_not_quote (c : Char) (h : c.isDigit = true) : isQuoteOpen c = false := by
  simp only [isQuoteOpen, Bool.or_eq_false_iff, decide_eq_false_iff_not]
  refine ⟨⟨⟨?_, ?_⟩, ?_⟩, ?_⟩ <;> intro he <;> rw [he] at h <;> exact absurd h (by decide)

/-- Digits are not statement separators. -/
theorem digit_not_semi (c : Char) (h : c.isDigit = true) : c ≠ ';' := by
  intro he
  rw [he] at h
  exact absurd h (by decide)

/-- Digits are word characters. -/
theorem digit_word (c : Char) (h : c.isDigit = true) : isWordChar c = true := by
  simp [isWordChar, Char.isAlphanum, h]

/-- All characters of a run come from the scanned list. -/
theorem wordRunsP_mem_chars : ∀ (s : List Char) (prev : Bool) (r : List Char),
    r ∈ wordRunsP prev s → ∀ c ∈ r, c ∈ s := by
  intro s
  induction s with
  | nil => intro prev r hr; simp [wordRunsP] at hr
  | cons a t ih =>
    intro prev r hr c hc
    by_cases hb : (!prev && isWordChar a) = true
    · rw [show wordRunsP prev (a :: t)
          = (a :: t.takeWhile isWordChar) :: wordRunsP (isWordChar a) t from by
        simp [wordRunsP, hb]] at hr
      rcases List.mem_cons.mp hr with he | hm
      · subst he
        rcases List.mem_cons.mp hc with he2 | hm2
        · exact he2 ▸ List.mem_cons_self a t
        · exact List.mem_cons_of_mem a (List.takeWhile_subset _ hm2)
      · exact List.mem_cons_of_mem a (ih (isWordChar a) r hm c hc)
    · rw [show wordRunsP prev (a :: t) = wordRunsP (isWordChar a) t from by
        simp only [wordRunsP]; rw [if_neg hb]] at hr
      exact List.mem_cons_of_mem a (ih (isWordChar a) r hr c hc)

/-- All characters of a run are word characters. -/
theorem wordRunsP_mem_word : ∀ (s : List Char) (prev : Bool) (r : List Char),
    r ∈ wordRunsP prev s → ∀ c ∈ r, isWordChar c = true := by
  intro s
  induction s with
  | nil => intro prev r hr; simp [wordRunsP] at hr
  | cons a t ih =>
    intro prev r hr c hc
    by_cases hb : (!prev && isWordChar a) = true
    · rw [show wordRunsP prev (a :: t)
          = (a :: t.takeWhile isWordChar) :: wordRunsP (isWordChar a) t from by
        simp [wordRunsP, hb]] at hr
      rcases List.mem_cons.mp hr with he | hm
      · subst he
        rcases List.mem_cons.mp hc with he2 | hm2
        · exact he2 ▸ (Bool.and_eq_true_iff.mp hb).2
        · exact List.mem_takeWhile_imp hm2
      · exact ih (isWordChar a) r hm c hc
    · rw [show wordRunsP prev (a :: t) = wordRunsP (isWordChar a) t from by
        simp only [wordRunsP]; rw [if_neg hb]] at hr
      exact ih (isWordChar a) r hr c hc

/-- The characters of a matched numeric-literal core are digits or the
decimal point. -/
theorem numLitCore_chars (u : List Char) (h : numLitCore u = true) :
    ∀ c ∈ u, c.isDigit = true ∨ c = '.' := by
  intro c hc
  simp only [numLitCore, Bool.and_eq_true] at h
  have hsplit : u = u.takeWhile Char.isDigit ++ u.dropWhile Char.isDigit :=
    (List.takeWhile_append_dropWhile Char.isDigit u).symm
  rw [hsplit] at hc
  rcases List.mem_append.mp hc with hm | hm
  · exact Or.inl (List.mem_takeWhile_imp hm)
  · obtain ⟨_, hrest⟩ := h
    rcases hd : u.dropWhile Char.isDigit with _ | ⟨c1, t1⟩
    · rw [hd] at hm; cases hm
    · rw [hd] at hm hrest
      simp only [Bool.and_eq_true, decide_eq_true_eq] at hrest
      obtain ⟨⟨hdot, _⟩, hempty⟩ := hrest
      rcases List.mem_cons.mp hm with he | hm2
      · exact Or.inr (he.trans hdot)
      · left
        have ht1 : t1 = t1.takeWhile Char.isDigit ++ t1.dropWhile Char.isDigit :=
          (List.takeWhile_append_dropWhile Char.isDigit t1).symm
        rw [ht1] at hm2
        rcases List.mem_append.mp hm2 with hm3 | hm3
        · exact List.mem_takeWhile_imp hm3
        · rw [List.isEmpty_iff.mp hempty] at hm3
          cases hm3

/-- The characters of a matched numeric literal are digits, the decimal
point, or the minus sign. -/
theorem numLit_chars (v : List Char) (h : numLit v = true) :
    ∀ c ∈ v, c.isDigit = true ∨ c = '.' ∨ c = '-' := by
  intro c hc
  cases v with
  | nil => cases hc
  | cons a t =>
    simp only [numLit] at h
    by_cases ha : a = '-'
    · rw [if_pos ha] at h
      rcases List.mem_cons.mp hc with he | hm
      · exact Or.inr (Or.inr (he.trans ha))
      · rcases numLitCore_chars t h c hm with h1 | h1
        · exact Or.inl h1
        · exact Or.inr (Or.inl h1)
    · rw [if_neg ha] at h
      rcases numLitCore_chars (a :: t) h c hc with h1 | h1
      · exact Or.inl h1
      · exact Or.inr (Or.inl h1)

/-! ## Tail-chaining helpers -/

/-- The empty tail. -/
theorem goodTail_nil : GoodTail [] := ⟨maskedSafe_nil, Or.inl rfl⟩

/-- A good tail may follow a quoted identifier or literal. -/
theorem goodTail_safeFollow (t : List Char) (h : GoodTail t) : safeFollow t := by
  rcases h.2 with he | ⟨cs, he⟩
  · subst he; exact Or.inl rfl
  · subst he; exact Or.inr (Or.inl rfl)

/-- A good tail provides a non-fusing boundary for a preceding plain
chunk. -/
theorem goodTail_boundary (t : List Char) (h : GoodTail t) :
    t = [] ∨ ∃ c cs, t = c :: cs ∧ isWordChar c = false := by
  rcases h.2 with he | ⟨cs, he⟩
  · exact Or.inl he
  · exact Or.inr ⟨' ', cs, he, by decide⟩

/-- A plain chunk before a good tail. -/
theorem maskedSafe_plain_gt (a t : List Char)
    (h1 : ∀ c ∈ a, isQuoteOpen c = false) (h2 : ';' ∉ a)
    (h3 : ∀ r ∈ wordRunsP false a, AllowedRun r)
    (ht : GoodTail t) : MaskedSafe (a ++ t) :=
  maskedSafe_plain a t h1 h2 h3 (Or.inr (goodTail_boundary t ht)) ht.1

/-- A digit block before a non-fusing boundary. -/
theorem maskedSafe_digits (ds b : List Char) (hds : ∀ c ∈ ds, c.isDigit = true)
    (hb : b = [] ∨ ∃ c cs, b = c :: cs ∧ isWordChar c = false)
    (h : MaskedSafe b) : MaskedSafe (ds ++ b) := by
  apply maskedSafe_plain ds b
  · intro c hc; exact digit_not_quote c (hds c hc)
  · intro hc; exact digit_not_semi ';' (hds ';' hc) rfl
  · intro r hr
    right
    intro c hc
    exact hds c (wordRunsP_mem_chars ds false r hr c hc)
  · exact Or.inr hb
  · exact h

/-! ## The classifier accepts every masked-safe SELECT text -/

/-- A list starts with itself extended. -/
theorem startsWithL_append (p x : List Char) : startsWithL p (p ++ x) = true := by
  induction p with
  | nil => rfl
  | cons c t ih => simp [startsWithL, ih]

/-- `stripLeadingComments` is the identity at a fixpoint of the loop
body. -/
theorem stripLeadingComments_fix (q : List Char) (h : stripOnce q = q) :
    stripLeadingComments q = q := by
  unfold stripLeadingComments
  cases hl : q.length with
  | zero => rfl
  | succ n => simp [stripLCAux, h]

/-- Text that starts with `S` is already a fixpoint of the comment
stripper. -/
theorem stripOnce_S (q1 : List Char) : stripOnce ('S' :: q1) = 'S' :: q1 := by
  cases q1 with
  | nil => rfl
  | cons c2 t2 => rfl

/-- The classifier verdict on a masked-safe query that begins with the
word `SELECT`. -/
theorem checkSelectOnly_of_maskedSafe (rest : List Char)
    (hq : MaskedSafe ("SELECT".data ++ rest)) :
    checkSelectOnly (String.mk ("SELECT".data ++ rest))
      = { isSelectOnly := true, reason := Option.none } := by
  set q : List Char := "SELECT".data ++ rest with hqdef
  have hqS : q = 'S' :: ("ELECT".data ++ rest) := rfl
  have hstrip : stripLeadingComments q = q := by
    rw [hqS]
    exact stripLeadingComments_fix _ (stripOnce_S _)
  have hdrop : q.dropWhile wsChar = q := by
    rw [hqS]
    simp [List.dropWhile_cons, wsChar]
  have hmask : maskChars .normal q = "SELECT".data ++ maskChars .normal rest := by
    rw [hqdef]
    exact maskChars_plain _ rest (by decide)
  have hnosemi : ';' ∉ maskChars .normal q := hq.1
  have hruns : ∀ r ∈ wordRunsP false (maskChars .normal q), AllowedRun r := hq.2
  have hmulti : hasMultipleStatements (maskChars .normal q) = false := by
    unfold hasMultipleStatements
    rw [afterFirstSemi_eq_none _ hnosemi]
  have hff : firstForbidden (maskChars .normal q) = Option.none := by
    unfold firstForbidden
    rw [firstForbiddenAux_eq_none_iff]
    intro r hr
    exact (allowedRun_safe r (hruns r hr)).1
  have hsi : selectIntoTest (maskChars .normal q) = false := by
    by_contra hc
    rw [Bool.not_eq_false] at hc
    obtain ⟨r, hr, hre⟩ := selectIntoAux_run _ false hc
    exact (allowedRun_safe r (hruns r hr)).2.1 hre
  have hfu : forUpdateTest (maskChars .normal q) = false := by
    by_contra hc
    rw [Bool.not_eq_false] at hc
    obtain ⟨r, hr, hre⟩ := forUpdateAux_run _ false hc
    exact (allowedRun_safe r (hruns r hr)).2.2 hre
  have hmaskdrop : (maskChars .normal q).dropWhile wsChar = maskChars .normal q := by
    rw [hmask]
    simp [List.dropWhile_cons, wsChar,
      show ("SELECT".data ++ maskChars .normal rest)
        = 'S' :: ("ELECT".data ++ maskChars .normal rest) from rfl]
  have hstart : startsWithL "select".data
      (lowerList ((maskChars .normal q).dropWhile wsChar)) = true := by
    rw [hmaskdrop, hmask]
    have : lowerList ("SELECT".data ++ maskChars .normal rest)
        = "select".data ++ lowerList (maskChars .normal rest) := by
      simp [lowerList]
    rw [this]
    exact startsWithL_append _ _
  have hdata : (String.mk q).data = q := rfl
  unfold checkSelectOnly
  rw [hdata, hstrip]
  rw [if_neg (by rw [hdrop, hqS]; simp)]
  rw [if_neg (by rw [hmulti]; simp)]
  rw [if_pos (by rw [hstart]; simp)]
  rw [hff, hsi]
  rw [if_neg (by simp)]
  rw [hfu]
  rw [if_neg (by simp)]

/-! ## Safety of the synthesized clauses -/

/-- The trailing LIMIT clause of the suffix-pagination dialects. -/
theorem goodTail_limit (k : Nat) : GoodTail (" LIMIT ".data ++ natDigits k) := by
  constructor
  · apply maskedSafe_plain " LIMIT ".data _ (by decide) (by decide) (by decide)
      (Or.inl ⟨' ', by decide, by decide⟩)
    have h := maskedSafe_digits (natDigits k) [] (natDigits_digits k) (Or.inl rfl) maskedSafe_nil
    simpa using h
  · exact Or.inr ⟨"LIMIT ".data ++ natDigits k, rfl⟩

/-- The optional ORDER BY clause preserves good tails. -/
theorem goodTail_order (d : DatabaseType) (sc : Option String) (sd : SortDirection)
    (t : List Char) (ht : GoodTail t) :
    GoodTail (ViewData.orderClauseChars d sc sd ++ t) := by
  have hasc : ∀ c : String, ∀ dir : List Char, dir = " ASC".data ∨ dir = " DESC".data →
      GoodTail ((" ORDER BY ".data ++ quoteIdentChars d c ++ dir) ++ t) := by
    intro c dir hdir
    have hinner : MaskedSafe (dir ++ t) := by
      rcases hdir with h | h <;> subst h <;>
        exact maskedSafe_plain_gt _ t (by decide) (by decide) (by decide) ht
    have hfol : safeFollow (dir ++ t) := by
      rcases hdir with h | h <;> subst h <;> exact Or.inr (Or.inl rfl)
    have hq : MaskedSafe (quoteIdentChars d c ++ (dir ++ t)) :=
      maskedSafe_quoted d c _ hfol hinner
    constructor
    · rw [List.append_assoc, List.append_assoc]
      exact maskedSafe_plain " ORDER BY ".data _ (by decide) (by decide) (by decide)
        (Or.inl ⟨' ', by decide, by decide⟩) hq
    · rw [List.append_assoc, List.append_assoc]
      exact Or.inr ⟨"ORDER BY ".data ++ (quoteIdentChars d c ++ (dir ++ t)), rfl⟩
  cases sc with
  | none => cases sd <;> simpa [ViewData.orderClauseChars] using ht
  | some c =>
    cases sd with
    | none => simpa [ViewData.orderClauseChars] using ht
    | asc =>
      have h := hasc c " ASC".data (Or.inl rfl)
      simpa [ViewData.orderClauseChars, List.append_assoc] using h
    | desc =>
      have h := hasc c " DESC".data (Or.inr rfl)
      simpa [ViewData.orderClauseChars, List.append_assoc] using h

/-- The coerced literal of a comparison predicate is safe before a good
tail. -/
theorem maskedSafe_coerce (v : List Char) (t : List Char) (ht : GoodTail t) :
    MaskedSafe (coerceLiteralChars v ++ t) := by
  unfold coerceLiteralChars
  by_cases he : (trimChars v).isEmpty
  · rw [if_pos he]
    exact maskedSafe_literal [] t (goodTail_safeFollow t ht) ht.1
  · rw [if_neg he]
    by_cases hn : numLit (trimChars v) = true
    · rw [if_pos hn]
      have hchars := numLit_chars (trimChars v) hn
      apply maskedSafe_plain _ t
      · intro c hc
        rcases hchars c hc with h | h | h
        · exact digit_not_quote c h
        · subst h; decide
        · subst h; decide
      · intro hc
        rcases hchars ';' hc with h | h | h <;> first | exact absurd h (by decide) | cases h
      · intro r hr
        right
        intro c hc
        have hword := wordRunsP_mem_word _ false r hr c hc
        have hmem := wordRunsP_mem_chars _ false r hr c hc
        rcases hchars c hmem with h | h | h
        · exact h
        · subst h; cases hword
        · subst h; cases hword
      · exact Or.inr (goodTail_boundary t ht)
      · exact ht.1
    · rw [if_neg hn]
      exact maskedSafe_literal _ t (goodTail_safeFollow t ht) ht.1

/-- A synthesized WHERE predicate is safe before a good tail. -/
theorem maskedSafe_wherePred (d : DatabaseType) (avail : List String)
    (ff : Option String) (fo : Option FilterOperator) (fv : Option String)
    (w t : List Char) (hw : ViewData.wherePredChars d avail ff fo fv = some w)
    (ht : GoodTail t) : MaskedSafe (w ++ t) := by
  simp only [ViewData.wherePredChars] at hw
  rcases hfd : (match truthyStr ff with
    | some f => if avail.contains f then some f else Option.none
    | Option.none => Option.none) with _ | f
  · rw [hfd] at hw
    cases fo <;> cases hw
  · rw [hfd] at hw
    cases fo with
    | none => cases hw
    | some op =>
      dsimp only at hw
      by_cases he : (trimChars (fv.getD "").data).isEmpty
      · rw [if_pos he] at hw
        cases hw
      · rw [if_neg he] at hw
        by_cases hl : op = .like
        · rw [if_pos hl] at hw
          rcases Option.some.inj hw with rfl
          have hlit : MaskedSafe (sqlLitChars (trimChars (fv.getD "").data) ++ t) :=
            maskedSafe_literal _ t (goodTail_safeFollow t ht) ht.1
          have hlike : MaskedSafe (" LIKE ".data ++
              (sqlLitChars (trimChars (fv.getD "").data) ++ t)) :=
            maskedSafe_plain " LIKE ".data _ (by decide) (by decide) (by decide)
              (Or.inl ⟨' ', by decide, by decide⟩) hlit
          have hq := maskedSafe_quoted d f _ (Or.inr (Or.inl (by rfl))) hlike
          rw [List.append_assoc, List.append_assoc]
          exact hq
        · rw [if_neg hl] at hw
          rcases Option.some.inj hw with rfl
          have hco : MaskedSafe (coerceLiteralChars (trimChars (fv.getD "").data) ++ t) :=
            maskedSafe_coerce _ t ht
          have hop : MaskedSafe ((' ' :: operatorChars op ++ [' ']) ++
              (coerceLiteralChars (trimChars (fv.getD "").data) ++ t)) := by
            cases op <;> first
            | exact absurd rfl hl
            | exact maskedSafe_plain _ _ (by decide) (by decide) (by decide)
                (Or.inl ⟨' ', by decide, by decide⟩) hco
          have hq := maskedSafe_quoted d f _ (Or.inr (Or.inl (by rfl))) hop
          have hsh : quoteIdentChars d f ++ ' ' :: operatorChars op ++ ' ' ::
              coerceLiteralChars (trimChars (fv.getD "").data) ++ t
              = quoteIdentChars d f ++ ((' ' :: operatorChars op ++ [' ']) ++
                (coerceLiteralChars (trimChars (fv.getD "").data) ++ t)) := by
            simp [List.append_assoc]
          rw [hsh]
          exact hq

/-- The optional WHERE clause preserves good tails. -/
theorem goodTail_where (d : DatabaseType) (avail : List String)
    (ff : Option String) (fo : Option FilterOperator) (fv : Option String)
    (t : List Char) (ht : GoodTail t) :
    GoodTail ((match ViewData.wherePredChars d avail ff fo fv with
      | some w => " WHERE ".data ++ w
      | Option.none => []) ++ t) := by
  rcases hwp : ViewData.wherePredChars d avail ff fo fv with _ | w
  · simpa using ht
  · have hpred := maskedSafe_wherePred d avail ff fo fv w t hwp ht
    constructor
    · rw [List.append_assoc]
      exact maskedSafe_plain " WHERE ".data _ (by decide) (by decide) (by decide)
        (Or.inl ⟨' ', by decide, by decide⟩) hpred
    · rw [List.append_assoc]
      exact Or.inr ⟨"WHERE ".data ++ (w ++ t), rfl⟩

/-- A comma-joined list of quoted identifiers is safe before a
space-headed safe tail. -/
theorem maskedSafe_joinSep_quoted (d : DatabaseType) (cols : List String) (t : List Char)
    (ht : MaskedSafe t) (hhead : ∃ cs, t = ' ' :: cs) :
    MaskedSafe (joinSep ", ".data (cols.map (quoteIdentChars d)) ++ t) := by
  induction cols with
  | nil => simpa using ht
  | cons c0 cols' ih =>
    obtain ⟨cs, hcs⟩ := hhead
    cases cols' with
    | nil =>
      have hfol : safeFollow t := by rw [hcs]; exact Or.inr (Or.inl rfl)
      simpa [joinSep] using maskedSafe_quoted d c0 t hfol ht
    | cons c1 cols'' =>
      have hj : joinSep ", ".data ((c0 :: c1 :: cols'').map (quoteIdentChars d))
          = quoteIdentChars d c0 ++ ", ".data ++
            joinSep ", ".data ((c1 :: cols'').map (quoteIdentChars d)) := by
        simp [joinSep]
      rw [hj, List.append_assoc, List.append_assoc]
      apply maskedSafe_quoted d c0 _ (Or.inr (Or.inr (Or.inl (by rfl))))
      exact maskedSafe_plain ", ".data _ (by decide) (by decide) (by decide)
        (Or.inl ⟨' ', by decide, by decide⟩) ih

/-- The FROM target is safe before a good tail. -/
theorem maskedSafe_fromTarget (d : DatabaseType) (schema : Option String) (tbl : String)
    (t : List Char) (ht : GoodTail t) :
    MaskedSafe (ViewData.fromTargetChars d schema tbl ++ t) := by
  unfold ViewData.fromTargetChars
  rcases truthyStr schema with _ | s
  · exact maskedSafe_quoted d tbl t (goodTail_safeFollow t ht) ht.1
  · have hq2 : MaskedSafe (quoteIdentChars d tbl ++ t) :=
      maskedSafe_quoted d tbl t (goodTail_safeFollow t ht) ht.1
    have hdot : MaskedSafe (['.'] ++ (quoteIdentChars d tbl ++ t)) :=
      maskedSafe_plain ['.'] _ (by decide) (by decide) (by decide)
        (Or.inl ⟨'.', by decide, by decide⟩) hq2
    have hq1 := maskedSafe_quoted d s _ (Or.inr (Or.inr (Or.inr (Or.inl (by rfl))))) hdot
    have hsh : (quoteIdentChars d s ++ '.' :: quoteIdentChars d tbl) ++ t
        = quoteIdentChars d s ++ (['.'] ++ (quoteIdentChars d tbl ++ t)) := by
      simp
    rw [hsh]
    exact hq1

/-- The middle of a synthesized query — projection, FROM target, WHERE
clause, ORDER BY clause — is masked-safe before any good tail. -/
theorem rowQuery_mid (d : DatabaseType) (st : ViewData.ViewState) (tail : List Char)
    (htail : GoodTail tail) :
    MaskedSafe ((if (ViewData.effectiveCols st).isEmpty then "*".data
        else joinSep ", ".data ((ViewData.effectiveCols st).map (quoteIdentChars d))) ++
      (" FROM ".data ++
        (ViewData.fromTargetChars d st.schema st.tableName ++
          ((match ViewData.wherePredChars d st.availableColumns st.filterField
              st.filterOperator st.filterValue with
            | some w => " WHERE ".data ++ w
            | Option.none => []) ++
            (ViewData.orderClauseChars d
              (ViewData.sortColOf st.availableColumns st.sortColumn) st.sortDirection ++
              tail))))) := by
  have horder : GoodTail (ViewData.orderClauseChars d
      (ViewData.sortColOf st.availableColumns st.sortColumn) st.sortDirection ++ tail) :=
    goodTail_order d _ _ tail htail
  have hwhere : GoodTail ((match ViewData.wherePredChars d st.availableColumns
      st.filterField st.filterOperator st.filterValue with
      | some w => " WHERE ".data ++ w
      | Option.none => []) ++
      (ViewData.orderClauseChars d
        (ViewData.sortColOf st.availableColumns st.sortColumn) st.sortDirection ++
        tail)) :=
    goodTail_where d _ _ _ _ _ horder
  have hfrom : MaskedSafe (ViewData.fromTargetChars d st.schema st.tableName ++
      ((match ViewData.wherePredChars d st.availableColumns st.filterField
          st.filterOperator st.filterValue with
        | some w => " WHERE ".data ++ w
        | Option.none => []) ++
        (ViewData.orderClauseChars d
          (ViewData.sortColOf st.availableColumns st.sortColumn) st.sortDirection ++
          tail))) :=
    maskedSafe_fromTarget d st.schema st.tableName _ hwhere
  have hfromword : MaskedSafe (" FROM ".data ++
      (ViewData.fromTargetChars d st.schema st.tableName ++
        ((match ViewData.wherePredChars d st.availableColumns st.filterField
            st.filterOperator st.filterValue with
          | some w => " WHERE ".data ++ w
          | Option.none => []) ++
          (ViewData.orderClauseChars d
            (ViewData.sortColOf st.availableColumns st.sortColumn) st.sortDirection ++
            tail)))) :=
    maskedSafe_plain " FROM ".data _ (by decide) (by decide) (by decide)
      (Or.inl ⟨' ', by decide, by decide⟩) hfrom
  by_cases hc : (ViewData.effectiveCols st).isEmpty
  · rw [if_pos hc]
    exact maskedSafe_plain "*".data _ (by decide) (by decide) (by decide)
      (Or.inr (Or.inr ⟨' ', _, rfl, by decide⟩)) hfromword
  · rw [if_neg hc]
    exact maskedSafe_joinSep_quoted d _ _ hfromword ⟨_, rfl⟩

/-- The row-view query always has the shape `SELECT …` and is
masked-safe. -/
theorem rowQuery_shape (d : DatabaseType) (st : ViewData.ViewState) :
    ∃ rest, ViewData.buildQueryChars d st = "SELECT".data ++ rest ∧
      MaskedSafe ("SELECT".data ++ rest) := by
  cases d with
  | mssql =>
    have hmid := rowQuery_mid .mssql st [] goodTail_nil
    have hclose : MaskedSafe (") ".data ++
        ((if (ViewData.effectiveCols st).isEmpty then "*".data
          else joinSep ", ".data
            ((ViewData.effectiveCols st).map (quoteIdentChars .mssql))) ++
        (" FROM ".data ++
          (ViewData.fromTargetChars .mssql st.schema st.tableName ++
            ((match ViewData.wherePredChars .mssql st.availableColumns st.filterField
                st.filterOperator st.filterValue with
              | some w => " WHERE ".data ++ w
              | Option.none => []) ++
              (ViewData.orderClauseChars .mssql
                (ViewData.sortColOf st.availableColumns st.sortColumn)
                st.sortDirection ++ [])))))) :=
      maskedSafe_plain ") ".data _ (by decide) (by decide) (by decide)
        (Or.inl ⟨' ', by decide, by decide⟩) hmid
    have hdig : MaskedSafe (natDigits (safeLimitOf st.limit) ++ (") ".data ++
        ((if (ViewData.effectiveCols st).isEmpty then "*".data
          else joinSep ", ".data
            ((ViewData.effectiveCols st).map (quoteIdentChars .mssql))) ++
        (" FROM ".data ++
          (ViewData.fromTargetChars .mssql st.schema st.tableName ++
            ((match ViewData.wherePredChars .mssql st.availableColumns st.filterField
                st.filterOperator st.filterValue with
              | some w => " WHERE ".data ++ w
              | Option.none => []) ++
              (ViewData.orderClauseChars .mssql
                (ViewData.sortColOf st.availableColumns st.sortColumn)
                st.sortDirection ++ []))))))) :=
      maskedSafe_digits _ _ (natDigits_digits _) (Or.inr ⟨')', _, rfl, by decide⟩) hclose
    have hall : MaskedSafe ("SELECT TOP (".data ++ (natDigits (safeLimitOf st.limit) ++
        (") ".data ++
        ((if (ViewData.effectiveCols st).isEmpty then "*".data
          else joinSep ", ".data
            ((ViewData.effectiveCols st).map (quoteIdentChars .mssql))) ++
        (" FROM ".data ++
          (ViewData.fromTargetChars .mssql st.schema st.tableName ++
            ((match ViewData.wherePredChars .mssql st.availableColumns st.filterField
                st.filterOperator st.filterValue with
              | some w => " WHERE ".data ++ w
              | Option.none => []) ++
              (ViewData.orderClauseChars .mssql
                (ViewData.sortColOf st.availableColumns st.sortColumn)
                st.sortDirection ++ [])))))))) :=
      maskedSafe_plain "SELECT TOP (".data _ (by decide) (by decide) (by decide)
        (Or.inl ⟨'(', by decide, by decide⟩) hdig
    refine ⟨" TOP (".data ++ (natDigits (safeLimitOf st.limit) ++ (") ".data ++
        ((if (ViewData.effectiveCols st).isEmpty then "*".data
          else joinSep ", ".data
            ((ViewData.effectiveCols st).map (quoteIdentChars .mssql))) ++
        (" FROM ".data ++
          (ViewData.fromTargetChars .mssql st.schema st.tableName ++
            ((match ViewData.wherePredChars .mssql st.availableColumns st.filterField
                st.filterOperator st.filterValue with
              | some w => " WHERE ".data ++ w
              | Option.none => []) ++
              (ViewData.orderClauseChars .mssql
                (ViewData.sortColOf st.availableColumns st.sortColumn)
                st.sortDirection ++ []))))))), ?_, ?_⟩
    · show ViewData.buildQueryChars .mssql st = _
      simp only [ViewData.buildQueryChars, ViewData.whereClauseChars, List.append_assoc,
        List.append_nil]
      rfl
    · rw [show ("SELECT".data : List Char) ++ (" TOP (".data ++ (natDigits (safeLimitOf st.limit) ++ (") ".data ++
        ((if (ViewData.effectiveCols st).isEmpty then "*".data
          else joinSep ", ".data
            ((ViewData.effectiveCols st).map (quoteIdentChars .mssql))) ++
        (" FROM ".data ++
          (ViewData.fromTargetChars .mssql st.schema st.tableName ++
            ((match ViewData.wherePredChars .mssql st.availableColumns st.filterField
                st.filterOperator st.filterValue with
              | some w => " WHERE ".data ++ w
              | Option.none => []) ++
              (ViewData.orderClauseChars .mssql
                (ViewData.sortColOf st.availableColumns st.sortColumn)
                st.sortDirection ++ []))))))))
        = "SELECT TOP (".data ++ (natDigits (safeLimitOf st.limit) ++ (") ".data ++
        ((if (ViewData.effectiveCols st).isEmpty then "*".data
          else joinSep ", ".data
            ((ViewData.effectiveCols st).map (quoteIdentChars .mssql))) ++
        (" FROM ".data ++
          (ViewData.fromTargetChars .mssql st.schema st.tableName ++
            ((match ViewData.wherePredChars .mssql st.availableColumns st.filterField
                st.filterOperator st.filterValue with
              | some w => " WHERE ".data ++ w
              | Option.none => []) ++
              (ViewData.orderClauseChars .mssql
                (ViewData.sortColOf st.availableColumns st.sortColumn)
                st.sortDirection ++ []))))))) from rfl]
      exact hall
  | postgresql =>
    have hmid := rowQuery_mid .postgresql st
      (" LIMIT ".data ++ natDigits (safeLimitOf st.limit)) (goodTail_limit _)
    have hall : MaskedSafe ("SELECT ".data ++
        ((if (ViewData.effectiveCols st).isEmpty then "*".data
          else joinSep ", ".data
            ((ViewData.effectiveCols st).map (quoteIdentChars .postgresql))) ++
        (" FROM ".data ++
          (ViewData.fromTargetChars .postgresql st.schema st.tableName ++
            ((match ViewData.wherePredChars .postgresql st.availableColumns st.filterField
                st.filterOperator st.filterValue with
              | some w => " WHERE ".data ++ w
              | Option.none => []) ++
              (ViewData.orderClauseChars .postgresql
                (ViewData.sortColOf st.availableColumns st.sortColumn)
                st.sortDirection ++
                (" LIMIT ".data ++ natDigits (safeLimitOf st.limit)))))))) :=
      maskedSafe_plain "SELECT ".data _ (by decide) (by decide) (by decide)
        (Or.inl ⟨' ', by decide, by decide⟩) hmid
    refine ⟨" ".data ++
        ((if (ViewData.effectiveCols st).isEmpty then "*".data
          else joinSep ", ".data
            ((ViewData.effectiveCols st).map (quoteIdentChars .postgresql))) ++
        (" FROM ".data ++
          (ViewData.fromTargetChars .postgresql st.schema st.tableName ++
            ((match ViewData.wherePredChars .postgresql st.availableColumns st.filterField
                st.filterOperator st.filterValue with
              | some w => " WHERE ".data ++ w
              | Option.none => []) ++
              (ViewData.orderClauseChars .postgresql
                (ViewData.sortColOf st.availableColumns st.sortColumn)
                st.sortDirection ++
                (" LIMIT ".data ++ natDigits (safeLimitOf st.limit))))))), ?_, ?_⟩
    · show ViewData.buildQueryChars .postgresql st = _
      simp only [ViewData.buildQueryChars, ViewData.whereClauseChars, List.append_assoc]
      rfl
    · exact hall
  | mysql =>
    have hmid := rowQuery_mid .mysql st
      (" LIMIT ".data ++ natDigits (safeLimitOf st.limit)) (goodTail_limit _)
    have hall : MaskedSafe ("SELECT ".data ++
        ((if (ViewData.effectiveCols st).isEmpty then "*".data
          else joinSep ", ".data
            ((ViewData.effectiveCols st).map (quoteIdentChars .mysql))) ++
        (" FROM ".data ++
          (ViewData.fromTargetChars .mysql st.schema st.tableName ++
            ((match ViewData.wherePredChars .mysql st.availableColumns st.filterField
                st.filterOperator st.filterValue with
              | some w => " WHERE ".data ++ w
              | Option.none => []) ++
              (ViewData.orderClauseChars .mysql
                (ViewData.sortColOf st.availableColumns st.sortColumn)
                st.sortDirection ++
                (" LIMIT ".data ++ natDigits (safeLimitOf st.limit)))))))) :=
      maskedSafe_plain "SELECT ".data _ (by decide) (by decide) (by decide)
        (Or.inl ⟨' ', by decide, by decide⟩) hmid
    refine ⟨" ".data ++
        ((if (ViewData.effectiveCols st).isEmpty then "*".data
          else joinSep ", ".data
            ((ViewData.effectiveCols st).map (quoteIdentChars .mysql))) ++
        (" FROM ".data ++
          (ViewData.fromTargetChars .mysql st.schema st.tableName ++
            ((match ViewData.wherePredChars .mysql st.availableColumns st.filterField
                st.filterOperator st.filterValue with
              | some w => " WHERE ".data ++ w
              | Option.none => []) ++
              (ViewData.orderClauseChars .mysql
                (ViewData.sortColOf st.availableColumns st.sortColumn)
                st.sortDirection ++
                (" LIMIT ".data ++ natDigits (safeLimitOf st.limit))))))), ?_, ?_⟩
    · show ViewData.buildQueryChars .mysql st = _
      simp only [ViewData.buildQueryChars, ViewData.whereClauseChars, List.append_assoc]
      rfl
    · exact hall

/-- A comma-joined list of parts, each of which preserves safety before a
safe follower, is safe before a safe follower. -/
theorem maskedSafe_joinSep_parts (parts : List (List Char)) (t : List Char)
    (hp : ∀ p ∈ parts, ∀ u, MaskedSafe u → safeFollow u → MaskedSafe (p ++ u))
    (ht : MaskedSafe t) (hfol : safeFollow t) :
    MaskedSafe (joinSep ", ".data parts ++ t) := by
  induction parts with
  | nil => simpa [joinSep] using ht
  | cons p0 parts' ih =>
    cases parts' with
    | nil => simpa [joinSep] using hp p0 (by simp) t ht hfol
    | cons p1 rest =>
      have hj : joinSep ", ".data (p0 :: p1 :: rest)
          = p0 ++ ", ".data ++ joinSep ", ".data (p1 :: rest) := by
        simp [joinSep]
      have hrec : MaskedSafe (joinSep ", ".data (p1 :: rest) ++ t) :=
        ih (fun p hmem u hu hfu => hp p (List.mem_cons_of_mem p0 hmem) u hu hfu)
      have hcomma : MaskedSafe (", ".data ++ (joinSep ", ".data (p1 :: rest) ++ t)) :=
        maskedSafe_plain ", ".data _ (by decide) (by decide) (by decide)
          (Or.inl ⟨' ', by decide, by decide⟩) hrec
      have h0 := hp p0 (List.mem_cons_self p0 _) _ hcomma
        (Or.inr (Or.inr (Or.inl (by rfl))))
      rw [hj, List.append_assoc, List.append_assoc]
      exact h0

/-- An aggregate projection term `FUNC(col) AS alias` is safe before a
safe follower. -/
theorem maskedSafe_funcPart (d : DatabaseType) (f : AggregateData.AggregateFunction)
    (fld aliasNm : String) (u : List Char) (hu : MaskedSafe u) (hfu : safeFollow u) :
    MaskedSafe ((AggregateData.funcNameChars f ++ ['(']) ++
      (quoteIdentChars d fld ++ (") AS ".data ++ (quoteIdentChars d aliasNm ++ u)))) := by
  have ha : MaskedSafe (quoteIdentChars d aliasNm ++ u) :=
    maskedSafe_quoted d aliasNm u hfu hu
  have has : MaskedSafe (") AS ".data ++ (quoteIdentChars d aliasNm ++ u)) :=
    maskedSafe_plain ") AS ".data _ (by decide) (by decide) (by decide)
      (Or.inl ⟨' ', by decide, by decide⟩) ha
  have hq : MaskedSafe (quoteIdentChars d fld ++
      (") AS ".data ++ (quoteIdentChars d aliasNm ++ u))) :=
    maskedSafe_quoted d fld _ (Or.inr (Or.inr (Or.inr (Or.inr (by rfl))))) has
  cases f <;>
    exact maskedSafe_plain _ _ (by decide) (by decide) (by decide)
      (Or.inl ⟨'(', by decide, by decide⟩) hq

/-- The `COUNT(*) AS count_all` term is safe before a safe follower. -/
theorem maskedSafe_countAll (d : DatabaseType) (u : List Char)
    (hu : MaskedSafe u) (hfu : safeFollow u) :
    MaskedSafe (AggregateData.countAllChars d ++ u) := by
  have hq : MaskedSafe (quoteIdentChars d "count_all" ++ u) :=
    maskedSafe_quoted d "count_all" u hfu hu
  unfold AggregateData.countAllChars
  rw [List.append_assoc]
  exact maskedSafe_plain "COUNT(*) AS ".data _ (by decide) (by decide) (by decide)
    (Or.inl ⟨' ', by decide, by decide⟩) hq

/-- One projection-loop step for a grouping key. -/
theorem aggLoop_cons_none (d : DatabaseType) (fld : String)
    (t : List AggregateData.AggregateItem) :
    AggregateData.aggLoop d (⟨fld, .none⟩ :: t)
      = ⟨quoteIdentChars d fld :: (AggregateData.aggLoop d t).selectParts,
         quoteIdentChars d fld :: (AggregateData.aggLoop d t).groupParts,
         fld :: (AggregateData.aggLoop d t).outputColumns⟩ := rfl

/-- One projection-loop step for a proper aggregate function. -/
theorem aggLoop_cons_func (d : DatabaseType) (fld : String)
    (f : AggregateData.AggregateFunction) (hf : f ≠ .none)
    (t : List AggregateData.AggregateItem) :
    AggregateData.aggLoop d (⟨fld, f⟩ :: t)
      = ⟨(AggregateData.funcNameChars f ++ '(' :: quoteIdentChars d fld ++ ") AS ".data ++
            quoteIdentChars d (if AggregateData.aliasBaseOf ⟨fld, f⟩ = ""
              then AggregateData.funcStr f else AggregateData.aliasBaseOf ⟨fld, f⟩)) ::
            (AggregateData.aggLoop d t).selectParts,
         (AggregateData.aggLoop d t).groupParts,
         (if AggregateData.aliasBaseOf ⟨fld, f⟩ = "" then AggregateData.funcStr f
            else AggregateData.aliasBaseOf ⟨fld, f⟩) ::
            (AggregateData.aggLoop d t).outputColumns⟩ := by
  cases f <;> first | exact absurd rfl hf | rfl

/-- Every projection term of the loop is safe before a safe follower. -/
theorem aggLoop_selectParts_safe (d : DatabaseType)
    (l : List AggregateData.AggregateItem) :
    ∀ p ∈ (AggregateData.aggLoop d l).selectParts,
      ∀ u, MaskedSafe u → safeFollow u → MaskedSafe (p ++ u) := by
  induction l with
  | nil =>
    intro p hp
    simp [AggregateData.aggLoop] at hp
  | cons a t ih =>
    intro p hp u hu hfu
    rcases a with ⟨fld, f⟩
    by_cases hf : f = AggregateData.AggregateFunction.none
    · subst hf
      rw [aggLoop_cons_none] at hp
      rcases List.mem_cons.mp hp with rfl | hmem
      · exact maskedSafe_quoted d fld u hfu hu
      · exact ih p hmem u hu hfu
    · rw [aggLoop_cons_func d fld f hf t] at hp
      rcases List.mem_cons.mp hp with rfl | hmem
      · have h := maskedSafe_funcPart d f fld
          (if AggregateData.aliasBaseOf ⟨fld, f⟩ = "" then AggregateData.funcStr f
            else AggregateData.aliasBaseOf ⟨fld, f⟩) u hu hfu
        have hsh : AggregateData.funcNameChars f ++ '(' :: quoteIdentChars d fld ++
            ") AS ".data ++
            quoteIdentChars d (if AggregateData.aliasBaseOf ⟨fld, f⟩ = ""
              then AggregateData.funcStr f else AggregateData.aliasBaseOf ⟨fld, f⟩) ++ u
            = (AggregateData.funcNameChars f ++ ['(']) ++
              (quoteIdentChars d fld ++ (") AS ".data ++
                (quoteIdentChars d (if AggregateData.aliasBaseOf ⟨fld, f⟩ = ""
                  then AggregateData.funcStr f
                  else AggregateData.aliasBaseOf ⟨fld, f⟩) ++ u))) := by
          simp
        rw [hsh]
        exact h
      · exact ih p hmem u hu hfu

/-- Every grouping key of the loop is a quoted identifier. -/
theorem aggLoop_groupParts_quoted (d : DatabaseType)
    (l : List AggregateData.AggregateItem) :
    ∀ p ∈ (AggregateData.aggLoop d l).groupParts, ∃ s, p = quoteIdentChars d s := by
  induction l with
  | nil =>
    intro p hp
    simp [AggregateData.aggLoop] at hp
  | cons a t ih =>
    intro p hp
    rcases a with ⟨fld, f⟩
    by_cases hf : f = AggregateData.AggregateFunction.none
    · subst hf
      rw [aggLoop_cons_none] at hp
      rcases List.mem_cons.mp hp with rfl | hmem
      · exact ⟨fld, rfl⟩
      · exact ih p hmem
    · rw [aggLoop_cons_func d fld f hf t] at hp
      exact ih p hp

/-- Every projection term after the count-all append rules comes from the
loop or is the count-all term. -/
theorem aggParts_select_mem (d : DatabaseType) (st : AggregateData.AggregateState)
    (p : List Char) (hp : p ∈ (AggregateData.aggParts d st).selectParts) :
    p ∈ (AggregateData.aggLoop d (AggregateData.validAggs st)).selectParts ∨
      p = AggregateData.countAllChars d := by
  simp only [AggregateData.aggParts] at hp
  split at hp <;> split at hp <;> simp_all <;> tauto

/-- The count-all append rules leave the grouping keys unchanged. -/
theorem aggParts_group_eq (d : DatabaseType) (st : AggregateData.AggregateState) :
    (AggregateData.aggParts d st).groupParts
      = (AggregateData.aggLoop d (AggregateData.validAggs st)).groupParts := by
  simp only [AggregateData.aggParts]
  split <;> split <;> rfl

/-- The optional GROUP BY clause over quoted identifiers preserves good
tails. -/
theorem goodTail_group (d : DatabaseType) (gps : List (List Char))
    (hq : ∀ p ∈ gps, ∃ s, p = quoteIdentChars d s) (t : List Char) (ht : GoodTail t) :
    GoodTail (AggregateData.groupClauseChars gps ++ t) := by
  unfold AggregateData.groupClauseChars
  by_cases he : gps.isEmpty
  · rw [if_pos he]
    simpa using ht
  · rw [if_neg he]
    constructor
    · rw [List.append_assoc]
      apply maskedSafe_plain " GROUP BY ".data _ (by decide) (by decide) (by decide)
        (Or.inl ⟨' ', by decide, by decide⟩)
      apply maskedSafe_joinSep_parts gps t _ ht.1 (goodTail_safeFollow t ht)
      intro p hp u hu hfu
      obtain ⟨c, rfl⟩ := hq p hp
      exact maskedSafe_quoted d c u hfu hu
    · rw [List.append_assoc]
      exact Or.inr ⟨"GROUP BY ".data ++ (joinSep ", ".data gps ++ t), rfl⟩

/-- The middle of a synthesized aggregate query — projection, FROM
target, WHERE clause, GROUP BY clause, ORDER BY clause — is masked-safe
before any good tail. -/
theorem aggQuery_mid (d : DatabaseType) (st : AggregateData.AggregateState)
    (tail : List Char) (htail : GoodTail tail) :
    MaskedSafe (joinSep ", ".data (AggregateData.aggParts d st).selectParts ++
      (" FROM ".data ++
        (ViewData.fromTargetChars d st.schema st.tableName ++
          ((match ViewData.wherePredChars d st.availableColumns st.filterField
              st.filterOperator st.filterValue with
            | some w => " WHERE ".data ++ w
            | Option.none => []) ++
            (AggregateData.groupClauseChars (AggregateData.aggParts d st).groupParts ++
              (ViewData.orderClauseChars d
                (ViewData.sortColOf (AggregateData.aggParts d st).outputColumns
                  st.sortColumn) st.sortDirection ++
                tail)))))) := by
  have horder : GoodTail (ViewData.orderClauseChars d
      (ViewData.sortColOf (AggregateData.aggParts d st).outputColumns st.sortColumn)
      st.sortDirection ++ tail) :=
    goodTail_order d _ _ tail htail
  have hgroup : GoodTail
      (AggregateData.groupClauseChars (AggregateData.aggParts d st).groupParts ++
        (ViewData.orderClauseChars d
          (ViewData.sortColOf (AggregateData.aggParts d st).outputColumns st.sortColumn)
          st.sortDirection ++ tail)) := by
    apply goodTail_group d _ _ _ horder
    intro p hp
    rw [aggParts_group_eq] at hp
    exact aggLoop_groupParts_quoted d _ p hp
  have hwhere : GoodTail ((match ViewData.wherePredChars d st.availableColumns
      st.filterField st.filterOperator st.filterValue with
      | some w => " WHERE ".data ++ w
      | Option.none => []) ++
      (AggregateData.groupClauseChars (AggregateData.aggParts d st).groupParts ++
        (ViewData.orderClauseChars d
          (ViewData.sortColOf (AggregateData.aggParts d st).outputColumns st.sortColumn)
          st.sortDirection ++ tail))) :=
    goodTail_where d _ _ _ _ _ hgroup
  have hfrom : MaskedSafe (ViewData.fromTargetChars d st.schema st.tableName ++
      ((match ViewData.wherePredChars d st.availableColumns st.filterField
          st.filterOperator st.filterValue with
        | some w => " WHERE ".data ++ w
        | Option.none => []) ++
        (AggregateData.groupClauseChars (AggregateData.aggParts d st).groupParts ++
          (ViewData.orderClauseChars d
            (ViewData.sortColOf (AggregateData.aggParts d st).outputColumns st.sortColumn)
            st.sortDirection ++ tail)))) :=
    maskedSafe_fromTarget d st.schema st.tableName _ hwhere
  have hfromword : MaskedSafe (" FROM ".data ++
      (ViewData.fromTargetChars d st.schema st.tableName ++
        ((match ViewData.wherePredChars d st.availableColumns st.filterField
            st.filterOperator st.filterValue with
          | some w => " WHERE ".data ++ w
          | Option.none => []) ++
          (AggregateData.groupClauseChars (AggregateData.aggParts d st).groupParts ++
            (ViewData.orderClauseChars d
              (ViewData.sortColOf (AggregateData.aggParts d st).outputColumns st.sortColumn)
              st.sortDirection ++ tail))))) :=
    maskedSafe_plain " FROM ".data _ (by decide) (by decide) (by decide)
      (Or.inl ⟨' ', by decide, by decide⟩) hfrom
  apply maskedSafe_joinSep_parts _ _ _ hfromword (Or.inr (Or.inl (by rfl)))
  intro p hp u hu hfu
  rcases aggParts_select_mem d st p hp with hmem | rfl
  · exact aggLoop_selectParts_safe d _ p hmem u hu hfu
  · exact maskedSafe_countAll d u hu hfu

/-- The aggregate query always has the shape `SELECT …` and is
masked-safe. -/
theorem aggQuery_shape (d : DatabaseType) (st : AggregateData.AggregateState) :
    ∃ rest, AggregateData.buildQueryChars d st = "SELECT".data ++ rest ∧
      MaskedSafe ("SELECT".data ++ rest) := by
  cases d with
  | mssql =>
    have hmid := aggQuery_mid .mssql st [] goodTail_nil
    have hclose : MaskedSafe (") ".data ++
        (joinSep ", ".data (AggregateData.aggParts .mssql st).selectParts ++
        (" FROM ".data ++
          (ViewData.fromTargetChars .mssql st.schema st.tableName ++
            ((match ViewData.wherePredChars .mssql st.availableColumns st.filterField
                st.filterOperator st.filterValue with
              | some w => " WHERE ".data ++ w
              | Option.none => []) ++
              (AggregateData.groupClauseChars (AggregateData.aggParts .mssql st).groupParts ++
                (ViewData.orderClauseChars .mssql
                  (ViewData.sortColOf (AggregateData.aggParts .mssql st).outputColumns
                    st.sortColumn) st.sortDirection ++
                  []))))))) :=
      maskedSafe_plain ") ".data _ (by decide) (by decide) (by decide)
        (Or.inl ⟨' ', by decide, by decide⟩) hmid
    have hdig : MaskedSafe (natDigits (safeLimitOf st.limit) ++ (") ".data ++
        (joinSep ", ".data (AggregateData.aggParts .mssql st).selectParts ++
        (" FROM ".data ++
          (ViewData.fromTargetChars .mssql st.schema st.tableName ++
            ((match ViewData.wherePredChars .mssql st.availableColumns st.filterField
                st.filterOperator st.filterValue with
              | some w => " WHERE ".data ++ w
              | Option.none => []) ++
              (AggregateData.groupClauseChars (AggregateData.aggParts .mssql st).groupParts ++
                (ViewData.orderClauseChars .mssql
                  (ViewData.sortColOf (AggregateData.aggParts .mssql st).outputColumns
                    st.sortColumn) st.sortDirection ++
                  [])))))))) :=
      maskedSafe_digits _ _ (natDigits_digits _) (Or.inr ⟨')', _, rfl, by decide⟩) hclose
    have hall : MaskedSafe ("SELECT TOP (".data ++ (natDigits (safeLimitOf st.limit) ++
        (") ".data ++
        (joinSep ", ".data (AggregateData.aggParts .mssql st).selectParts ++
        (" FROM ".data ++
          (ViewData.fromTargetChars .mssql st.schema st.tableName ++
            ((match ViewData.wherePredChars .mssql st.availableColumns st.filterField
                st.filterOperator st.filterValue with
              | some w => " WHERE ".data ++ w
              | Option.none => []) ++
              (AggregateData.groupClauseChars (AggregateData.aggParts .mssql st).groupParts ++
                (ViewData.orderClauseChars .mssql
                  (ViewData.sortColOf (AggregateData.aggParts .mssql st).outputColumns
                    st.sortColumn) st.sortDirection ++
                  []))))))))) :=
      maskedSafe_plain "SELECT TOP (".data _ (by decide) (by decide) (by decide)
        (Or.inl ⟨'(', by decide, by decide⟩) hdig
    refine ⟨" TOP (".data ++ (natDigits (safeLimitOf st.limit) ++ (") ".data ++
        (joinSep ", ".data (AggregateData.aggParts .mssql st).selectParts ++
        (" FROM ".data ++
          (ViewData.fromTargetChars .mssql st.schema st.tableName ++
            ((match ViewData.wherePredChars .mssql st.availableColumns st.filterField
                st.filterOperator st.filterValue with
              | some w => " WHERE ".data ++ w
              | Option.none => []) ++
              (AggregateData.groupClauseChars (AggregateData.aggParts .mssql st).groupParts ++
                (ViewData.orderClauseChars .mssql
                  (ViewData.sortColOf (AggregateData.aggParts .mssql st).outputColumns
                    st.sortColumn) st.sortDirection ++
                  [])))))))), ?_, ?_⟩
    · show AggregateData.buildQueryChars .mssql st = _
      simp only [AggregateData.buildQueryChars, List.append_assoc, List.append_nil]
      rfl
    · rw [show ("SELECT".data : List Char) ++ (" TOP (".data ++
          (natDigits (safeLimitOf st.limit) ++ (") ".data ++
          (joinSep ", ".data (AggregateData.aggParts .mssql st).selectParts ++
          (" FROM ".data ++
            (ViewData.fromTargetChars .mssql st.schema st.tableName ++
              ((match ViewData.wherePredChars .mssql st.availableColumns st.filterField
                  st.filterOperator st.filterValue with
                | some w => " WHERE ".data ++ w
                | Option.none => []) ++
                (AggregateData.groupClauseChars (AggregateData.aggParts .mssql st).groupParts ++
                  (ViewData.orderClauseChars .mssql
                    (ViewData.sortColOf (AggregateData.aggParts .mssql st).outputColumns
                      st.sortColumn) st.sortDirection ++
                    [])))))))))
          = "SELECT TOP (".data ++ (natDigits (safeLimitOf st.limit) ++ (") ".data ++
          (joinSep ", ".data (AggregateData.aggParts .mssql st).selectParts ++
          (" FROM ".data ++
            (ViewData.fromTargetChars .mssql st.schema st.tableName ++
              ((match ViewData.wherePredChars .mssql st.availableColumns st.filterField
                  st.filterOperator st.filterValue with
                | some w => " WHERE ".data ++ w
                | Option.none => []) ++
                (AggregateData.groupClauseChars (AggregateData.aggParts .mssql st).groupParts ++
                  (ViewData.orderClauseChars .mssql
                    (ViewData.sortColOf (AggregateData.aggParts .mssql st).outputColumns
                      st.sortColumn) st.sortDirection ++
                    [])))))))) from rfl]
      exact hall
  | postgresql =>
    have hmid := aggQuery_mid .postgresql st
      (" LIMIT ".data ++ natDigits (safeLimitOf st.limit)) (goodTail_limit _)
    have hall : MaskedSafe ("SELECT ".data ++
        (joinSep ", ".data (AggregateData.aggParts .postgresql st).selectParts ++
        (" FROM ".data ++
          (ViewData.fromTargetChars .postgresql st.schema st.tableName ++
            ((match ViewData.wherePredChars .postgresql st.availableColumns st.filterField
                st.filterOperator st.filterValue with
              | some w => " WHERE ".data ++ w
              | Option.none => []) ++
              (AggregateData.groupClauseChars (AggregateData.aggParts .postgresql st).groupParts ++
                (ViewData.orderClauseChars .postgresql
                  (ViewData.sortColOf (AggregateData.aggParts .postgresql st).outputColumns
                    st.sortColumn) st.sortDirection ++
                  (" LIMIT ".data ++ natDigits (safeLimitOf st.limit))))))))) :=
      maskedSafe_plain "SELECT ".data _ (by decide) (by decide) (by decide)
        (Or.inl ⟨' ', by decide, by decide⟩) hmid
    refine ⟨" ".data ++
        (joinSep ", ".data (AggregateData.aggParts .postgresql st).selectParts ++
        (" FROM ".data ++
          (ViewData.fromTargetChars .postgresql st.schema st.tableName ++
            ((match ViewData.wherePredChars .postgresql st.availableColumns st.filterField
                st.filterOperator st.filterValue with
              | some w => " WHERE ".data ++ w
              | Option.none => []) ++
              (AggregateData.groupClauseChars (AggregateData.aggParts .postgresql st).groupParts ++
                (ViewData.orderClauseChars .postgresql
                  (ViewData.sortColOf (AggregateData.aggParts .postgresql st).outputColumns
                    st.sortColumn) st.sortDirection ++
                  (" LIMIT ".data ++ natDigits (safeLimitOf st.limit)))))))), ?_, ?_⟩
    · show AggregateData.buildQueryChars .postgresql st = _
      simp only [AggregateData.buildQueryChars, List.append_assoc]
      rfl
    · exact hall
  | mysql =>
    have hmid := aggQuery_mid .mysql st
      (" LIMIT ".data ++ natDigits (safeLimitOf st.limit)) (goodTail_limit _)
    have hall : MaskedSafe ("SELECT ".data ++
        (joinSep ", ".data (AggregateData.aggParts .mysql st).selectParts ++
        (" FROM ".data ++
          (ViewData.fromTargetChars .mysql st.schema st.tableName ++
            ((match ViewData.wherePredChars .mysql st.availableColumns st.filterField
                st.filterOperator st.filterValue with
              | some w => " WHERE ".data ++ w
              | Option.none => []) ++
              (AggregateData.groupClauseChars (AggregateData.aggParts .mysql st).groupParts ++
                (ViewData.orderClauseChars .mysql
                  (ViewData.sortColOf (AggregateData.aggParts .mysql st).outputColumns
                    st.sortColumn) st.sortDirection ++
                  (" LIMIT ".data ++ natDigits (safeLimitOf st.limit))))))))) :=
      maskedSafe_plain "SELECT ".data _ (by decide) (by decide) (by decide)
        (Or.inl ⟨' ', by decide, by decide⟩) hmid
    refine ⟨" ".data ++
        (joinSep ", ".data (AggregateData.aggParts .mysql st).selectParts ++
        (" FROM ".data ++
          (ViewData.fromTargetChars .mysql st.schema st.tableName ++
            ((match ViewData.wherePredChars .mysql st.availableColumns st.filterField
                st.filterOperator st.filterValue with
              | some w => " WHERE ".data ++ w
              | Option.none => []) ++
              (AggregateData.groupClauseChars (AggregateData.aggParts .mysql st).groupParts ++
                (ViewData.orderClauseChars .mysql
                  (ViewData.sortColOf (AggregateData.aggParts .mysql st).outputColumns
                    st.sortColumn) st.sortDirection ++
                  (" LIMIT ".data ++ natDigits (safeLimitOf st.limit)))))))), ?_, ?_⟩
    · show AggregateData.buildQueryChars .mysql st = _
      simp only [AggregateData.buildQueryChars, List.append_assoc]
      rfl
    · exact hall

/-! ## Claim C1: safety of synthesized queries for reachable states -/

/-- C1: for every row-view state and every aggregate-view state reachable
solely through the subsystem's own operations (initial construction,
merge, add/remove aggregation — in particular without any hostility
restriction on the filter value), and for each of the three dialects, the
guardrail classifier accepts the synthesized query: `isSelectOnly` is
`true`. -/
theorem c1_reachable_synthesis_safe (d : DatabaseType)
    (rst : ViewData.ViewState) (ast : AggregateData.AggregateState)
    (hr : ViewData.RowReachable rst) (ha : AggregateData.AggReachable ast) :
    (checkSelectOnly (ViewData.buildQuery d rst)).isSelectOnly = true ∧
      (checkSelectOnly (AggregateData.buildQuery d ast)).isSelectOnly = true := by
  clear hr ha
  constructor
  · obtain ⟨rest, heq, hsafe⟩ := rowQuery_shape d rst
    have h := checkSelectOnly_of_maskedSafe rest hsafe
    unfold ViewData.buildQuery
    rw [heq, h]
  · obtain ⟨rest, heq, hsafe⟩ := aggQuery_shape d ast
    have h := checkSelectOnly_of_maskedSafe rest hsafe
    unfold AggregateData.buildQuery
    rw [heq, h]

/-- C1, witness: freshly opened row and aggregate views (reachable by the
`init` constructors) synthesize queries the classifier accepts. -/
theorem c1_witness :
    (checkSelectOnly (ViewData.buildQuery .postgresql
        (ViewData.initViewState "c" Option.none Option.none "t"
          [("id", false), ("name", false)]))).isSelectOnly = true ∧
      (checkSelectOnly (AggregateData.buildQuery .postgresql
        (AggregateData.initAggState "c" Option.none Option.none "t" ["id"] []
          true))).isSelectOnly = true :=
  c1_reachable_synthesis_safe .postgresql _ _
    (ViewData.RowReachable.init "c" Option.none Option.none "t"
      [("id", false), ("name", false)])
    (AggregateData.AggReachable.init "c" Option.none Option.none "t" ["id"] [] true)

/-! ## Claim C6: multiple-statement detection -/

/-- `afterFirstSemi` on a text decomposed at some separator yields a
remainder that has the decomposition's tail as a suffix. -/
theorem afterFirstSemi_suffix (pre post : List Char) :
    ∃ rest, afterFirstSemi (pre ++ ';' :: post) = some rest ∧ post <:+ rest := by
  induction pre with
  | nil => exact ⟨post, by simp [afterFirstSemi], List.suffix_refl post⟩
  | cons c t ih =>
    by_cases hc : c = ';'
    · subst hc
      refine ⟨t ++ ';' :: post, by simp [afterFirstSemi], ⟨t ++ [';'], by simp⟩⟩
    · obtain ⟨rest, h1, h2⟩ := ih
      exact ⟨rest, by simp [afterFirstSemi, hc, h1], h2⟩

/-- Masking is the identity on text with no quote-opening character. -/
theorem maskChars_id (l : List Char) (h : ∀ c ∈ l, isQuoteOpen c = false) :
    maskChars .normal l = l := by
  have := maskChars_plain l [] h
  simpa [maskChars] using this

/-- C6: whenever the masked text contains a statement separator followed
somewhere by a non-whitespace character, the classifier rejects with the
multiple-statements reason; in particular `SELECT 1; SELECT 2` is
rejected, while a single trailing separator as in `SELECT 1;` is
tolerated. -/
theorem c6_multiple_statements :
    (∀ (s : String) (pre post : List Char) (c : Char),
        maskOf s = pre ++ ';' :: post → c ∈ post → wsChar c = false →
        checkSelectOnly s
          = { isSelectOnly := false, reason := some "Multiple statements detected." }) ∧
      checkSelectOnly "SELECT 1; SELECT 2"
        = { isSelectOnly := false, reason := some "Multiple statements detected." } ∧
      checkSelectOnly "SELECT 1;" = { isSelectOnly := true, reason := Option.none } := by
  refine ⟨?_, by decide, by decide⟩
  intro s pre post c hdecomp hc hw
  have hsemi : ';' ∈ maskOf s := by
    rw [hdecomp]
    simp
  have hne : ¬((stripLeadingComments s.data).dropWhile wsChar).isEmpty = true := by
    intro he
    have hall : ∀ x ∈ stripLeadingComments s.data, wsChar x = true := by
      rw [List.isEmpty_iff] at he
      exact fun x hx => List.dropWhile_eq_nil_iff.mp he x hx
    have hid : maskChars .normal (stripLeadingComments s.data)
        = stripLeadingComments s.data := by
      apply maskChars_id
      intro x hx
      have hxw := hall x hx
      unfold wsChar at hxw
      simp only [Bool.or_eq_true, decide_eq_true_eq] at hxw
      rcases hxw with (((((h | h) | h) | h) | h) | h) <;> subst h <;> decide
    have : wsChar ';' = true := by
      apply hall
      rw [← hid]
      exact hsemi
    exact absurd this (by decide)
  have hm : hasMultipleStatements (maskChars .normal (stripLeadingComments s.data))
      = true := by
    have hdec : maskChars .normal (stripLeadingComments s.data) = pre ++ ';' :: post :=
      hdecomp
    obtain ⟨rest, h1, h2⟩ := afterFirstSemi_suffix pre post
    rw [hasMultipleStatements, hdec, h1]
    simp only [Bool.not_eq_eq_eq_not, Bool.not_true, List.all_eq_false]
    exact ⟨c, h2.subset hc, by simp [hw]⟩
  unfold checkSelectOnly
  rw [if_neg hne, if_pos hm]

/-- C6, witness: the universal rejection applied to the decomposition of
the masked text of `SELECT 1; SELECT 2`. -/
theorem c6_witness :
    checkSelectOnly (String.mk "SELECT 1; SELECT 2".data)
      = { isSelectOnly := false, reason := some "Multiple statements detected." } :=
  c6_multiple_statements.1 (String.mk "SELECT 1; SELECT 2".data)
    "SELECT 1".data " SELECT 2".data 'S' (by decide) (by decide) (by decide)

/-! ## Claim C7: the deny-list scan and its reasons -/

/-- C7, counterexample: `UPDATE t SET x=1` is rejected by the earlier
SELECT/WITH prefix check, so its reason is `Statement is not a SELECT.` —
a reason that does not name the keyword `update` at all. -/
theorem c7_counterexample :
    checkSelectOnly "UPDATE t SET x=1"
      = { isSelectOnly := false, reason := some "Statement is not a SELECT." } ∧
      containsL "update".data (lowerList "Statement is not a SELECT.".data) = false := by
  decide

/-- C7 (amended): for every input that passes the empty, multi-statement
and SELECT/WITH prefix checks, a whole-word case-insensitive deny-list
keyword in the masked text forces rejection with a reason naming a
matched keyword; `WITH c AS (SELECT 1) SELECT * FROM c` is accepted.  The
inputs the claim quantifies over must pass the prefix check, so
`UPDATE t SET x=1` is outside its scope: it is rejected earlier, with
reason `Statement is not a SELECT.`. -/
theorem c7_amended :
    (∀ s : String,
        ((stripLeadingComments s.data).dropWhile wsChar).isEmpty = false →
        hasMultipleStatements (maskOf s) = false →
        (startsWithL "select".data (lowerList ((maskOf s).dropWhile wsChar))
            || startsWithL "with".data (lowerList ((maskOf s).dropWhile wsChar))) = true →
        (∃ r ∈ wordRunsP false (maskOf s), lowerList r ∈ denyKeywords) →
        ∃ m, lowerList m ∈ denyKeywords ∧
          checkSelectOnly s
            = ⟨false, some ("Forbidden keyword detected: " ++ String.mk m ++ ".")⟩) ∧
      checkSelectOnly "WITH c AS (SELECT 1) SELECT * FROM c"
        = { isSelectOnly := true, reason := Option.none } ∧
      checkSelectOnly "UPDATE t SET x=1"
        = { isSelectOnly := false, reason := some "Statement is not a SELECT." } := by
  refine ⟨?_, by decide, by decide⟩
  intro s h1 h2 h3 hdeny
  unfold maskOf at h2 h3 hdeny
  have hff : ∃ m, firstForbidden (maskChars .normal (stripLeadingComments s.data))
      = some m := by
    rcases hcase : firstForbidden (maskChars .normal (stripLeadingComments s.data))
      with _ | m
    · exfalso
      obtain ⟨r, hr, hrd⟩ := hdeny
      exact (firstForbiddenAux_eq_none_iff
        (maskChars .normal (stripLeadingComments s.data)) false).mp hcase r hr hrd
    · exact ⟨m, rfl⟩
  obtain ⟨m, hm⟩ := hff
  refine ⟨m, firstForbiddenAux_some_deny _ false m hm, ?_⟩
  unfold checkSelectOnly
  rw [if_neg (by rw [h1]; exact Bool.false_ne_true), if_neg (by rw [h2]; exact
    Bool.false_ne_true), if_pos h3, hm]

/-- C7, witness: the amended rejection rule applied to
`SELECT drop FROM t`, whose masked text contains the whole word `drop`. -/
theorem c7_witness :
    ∃ m, lowerList m ∈ denyKeywords ∧
      checkSelectOnly (String.mk "SELECT drop FROM t".data)
        = ⟨false, some ("Forbidden keyword detected: " ++ String.mk m ++ ".")⟩ :=
  c7_amended.1 (String.mk "SELECT drop FROM t".data) (by decide) (by decide) (by decide)
    ⟨"drop".data, by decide, by decide⟩

/-! ## Claim C10: unreachability of the FOR UPDATE branch -/

/-- String append acts on the underlying character lists. -/
theorem stringData_append (a b : String) : (a ++ b).data = a.data ++ b.data := rfl

/-- C10, counterexample: for `SELECT begin FROM t FOR UPDATE` the masked
text matches the FOR UPDATE pattern, yet the deny-list scan reports the
leftmost keyword `begin`, not `update` — the claim's asserted reason
`Forbidden keyword detected: update.` is not returned. -/
theorem c10_counterexample :
    forUpdateTest (maskOf "SELECT begin FROM t FOR UPDATE") = true ∧
      checkSelectOnly "SELECT begin FROM t FOR UPDATE"
        = ⟨false, some "Forbidden keyword detected: begin."⟩ ∧
      (checkSelectOnly "SELECT begin FROM t FOR UPDATE").reason
        ≠ some "Forbidden keyword detected: update." := by
  decide

/-- C10 (amended): the dedicated FOR UPDATE branch is indeed unreachable —
no input ever produces the reason `FOR UPDATE detected.` — because a
masked text matching the FOR UPDATE pattern contains the whole word
`update`, so the deny-list scan, when it is reached, necessarily reports
some keyword first (though not necessarily `update` itself), and inputs
rejected by the earlier checks receive those checks' reasons. -/
theorem c10_for_update_unreachable (s : String) :
    (checkSelectOnly s).reason ≠ some "FOR UPDATE detected." := by
  unfold checkSelectOnly
  by_cases h1 : ((stripLeadingComments s.data).dropWhile wsChar).isEmpty = true
  · rw [if_pos h1]
    decide
  · rw [if_neg h1]
    by_cases h2 : hasMultipleStatements
        (maskChars .normal (stripLeadingComments s.data)) = true
    · rw [if_pos h2]
      decide
    · rw [if_neg h2]
      by_cases h3 : (startsWithL "select".data (lowerList
            ((maskChars .normal (stripLeadingComments s.data)).dropWhile wsChar))
          || startsWithL "with".data (lowerList
            ((maskChars .normal (stripLeadingComments s.data)).dropWhile wsChar))) = true
      · rw [if_pos h3]
        rcases hff : firstForbidden (maskChars .normal (stripLeadingComments s.data))
          with _ | m
        · dsimp only
          by_cases hsi : selectIntoTest
              (maskChars .normal (stripLeadingComments s.data)) = true
          · rw [if_pos hsi]
            decide
          · rw [if_neg hsi]
            by_cases hfu : forUpdateTest
                (maskChars .normal (stripLeadingComments s.data)) = true
            · obtain ⟨r, hr, hrl⟩ := forUpdateAux_run
                (maskChars .normal (stripLeadingComments s.data)) false hfu
              have hd : lowerList r ∈ denyKeywords := by
                rw [hrl]
                decide
              exact absurd hd ((firstForbiddenAux_eq_none_iff
                (maskChars .normal (stripLeadingComments s.data)) false).mp hff r hr)
            · rw [if_neg hfu]
              decide
        · intro h
          have h2 : some ("Forbidden keyword detected: " ++ String.mk m ++ ".")
              = some "FOR UPDATE detected." := h
          have h3 := congrArg String.data (Option.some.inj h2)
          rw [stringData_append, stringData_append] at h3
          have hlen := congrArg List.length h3
          rw [List.length_append, List.length_append] at hlen
          have e1 : "Forbidden keyword detected: ".data.length = 28 := by decide
          have e2 : ".".data.length = 1 := by decide
          have e3 : "FOR UPDATE detected.".data.length = 20 := by decide
          rw [e1, e2, e3] at hlen
          omega
      · rw [if_neg h3]
        decide

end AiSql
